import Mathlib

set_option maxRecDepth 8000

/-!
# Verification of cwlogs-insights-query

A shallow embedding of the two non-trivial components of the
`cwlogs-insights-query` repository, together with proofs about them.

* The trace traversal and log-info aggregator (`xray.go`):
  `traverseTrace` / `GatherLogInfo` walk a directed graph of X-Ray traces,
  deduplicate visited trace ids, extract typed fields from segment documents
  via JSONPath queries, and resolve discovered API-gateway `{restApiId, stage}`
  pairs to log-group names by probing the log-delivery configuration.
* The query lifecycle controller (`main.go`): `getResult` polls a started
  CloudWatch Logs Insights query with exponential backoff until a terminal
  status, streams completed rows as JSON lines, persists the last statistics
  snapshot, and issues a `StopQuery` cancellation on abnormal exit.
* The query-text augmentation in `run` (trace-driven mode), which appends a
  `| filter ...` clause built from discovered trace and request ids.

Modelling conventions: Go float64 values are modelled as rationals (the
claims never exercise NaN or rounding of `math.Min`/`math.Max`, which are
exact); Go's `int64(f)` conversion is truncation toward zero (`i64` below);
`mapset` sets are modelled as duplicate-free lists in insertion order (the
Go iteration order of `ToSlice` is arbitrary, so only the set of elements is
meaningful); AWS calls are modelled as explicit finite maps / oracles passed
in as parameters; segment documents arrive pre-parsed, with a distinguished
parse-error case mirroring `ajson.Unmarshal` failure.  The recursive
traversal takes a fuel argument, decremented at every recursive call; the
termination theorem shows some fuel always suffices.
-/

deriving instance DecidableEq for Except

namespace CWQ

/-- `math.Min` on the modelled floats (NaN behaviour is not modelled). -/
def mathMin (x y : ℚ) : ℚ := if x ≤ y then x else y

/-- `math.Max` on the modelled floats (NaN behaviour is not modelled). -/
def mathMax (x y : ℚ) : ℚ := if x ≤ y then y else x

/-! ## Semi-structured documents and path extraction

`xray.go` parses each segment document with `ajson` and reads fields with
JSONPath queries.  `Json` is the parsed document tree; the helpers below
implement exactly the path shapes the source uses: chains of object keys
(`$.aws.request_id`), recursive descent (`$..log_group`), and a sibling
lookup on the parent of a matched node (`found.Parent()` + `@.stage`). -/

inductive Json where
  | null : Json
  | bool (b : Bool) : Json
  | num (v : ℚ) : Json
  | str (s : String) : Json
  | arr (elems : List Json) : Json
  | obj (fields : List (String × Json)) : Json

/-- Children of an object node at key `k`, in document order (JSONPath `.k`). -/
def getKey (j : Json) (k : String) : List Json :=
  match j with
  | .obj fields => fields.filterMap (fun f => if f.1 = k then some f.2 else none)
  | _ => []

/-- A chain of object keys starting at the root (JSONPath `$.k1.k2...`),
collecting matches in document order. -/
def pathKeys (j : Json) (ks : List String) : List Json :=
  ks.foldl (fun ns k => ns.flatMap (fun n => getKey n k)) [j]

mutual

/-- A node and all of its descendants, in preorder. -/
def descendants : Json → List Json
  | .arr es => .arr es :: descList es
  | .obj fs => .obj fs :: descFields fs
  | j => [j]

def descList : List Json → List Json
  | [] => []
  | e :: es => descendants e ++ descList es

def descFields : List (String × Json) → List Json
  | [] => []
  | f :: fs => descendants f.2 ++ descFields fs

end

/-- Recursive descent to a key (JSONPath `..k`), starting at (and including)
the given node. -/
def recDesc (j : Json) (k : String) : List Json :=
  (descendants j).flatMap (fun n => getKey n k)

/-- `ajson`'s `Node.GetString`: succeeds only on string nodes. -/
def getStringV : Json → Except String String
  | .str s => .ok s
  | _ => .error "GetString: not a string"

/-- `ajson`'s `Node.GetNumeric`: succeeds only on numeric nodes. -/
def getNumericV : Json → Except String ℚ
  | .num v => .ok v
  | _ => .error "GetNumeric: not numeric"

/-- `atMostOneValue` from `xray.go`: given the node list a JSONPath query
returned, convert the first node (if any) with `f`; zero matches is not an
error, a conversion failure is. -/
def atMostOneValue {α : Type} (nodes : List Json) (f : Json → Except String α) :
    Except String (Option α) :=
  match nodes with
  | [] => .ok none
  | n :: _ => (f n).map some

/-- `atMostOneString` from `xray.go` (specialised to a computed node list). -/
def atMostOneStr (nodes : List Json) : Except String (Option String) :=
  atMostOneValue nodes getStringV

/-- `atMostOneNumeric` from `xray.go`. -/
def atMostOneNum (nodes : List Json) : Except String (Option ℚ) :=
  atMostOneValue nodes getNumericV

/-- `multiString` from `xray.go`: convert every matched node to a string,
aborting at the first non-string node. -/
def multiStringV : List Json → Except String (List String)
  | [] => .ok []
  | n :: ns =>
    match getStringV n with
    | .error e => .error e
    | .ok v =>
      match multiStringV ns with
      | .error e => .error e
      | .ok vs => .ok (v :: vs)

/-- Matches of `$.aws.api_gateway.rest_api_id` paired with their parent node
(the `api_gateway` object), in document order.  The Go code obtains the
parent of the first match via `found.Parent()`. -/
def apiMatches (root : Json) : List (Json × Json) :=
  (pathKeys root ["aws", "api_gateway"]).flatMap
    (fun p => (getKey p "rest_api_id").map (fun n => (p, n)))

/-- First `rest_api_id` match (as a string) together with its parent node;
`none` when the path yields no match, an error when the matched node is not
a string. -/
def extractRestAPI (root : Json) : Except String (Option (Json × String)) :=
  match apiMatches root with
  | [] => .ok none
  | m :: _ => (getStringV m.2).map (fun v => some (m.1, v))

/-! ## Traversal state and per-document extraction

`traverseTraceInfo` from `xray.go`, with `mapset` sets modelled as
duplicate-free lists in insertion order.  The extra `fetchLog` field is a
ghost instrumentation list recording, in order, every trace id for which a
`BatchGetTraces` call was issued; it influences nothing else and exists so
that "each reachable trace is fetched exactly once" is directly statable. -/

/-- `resetAPIInfo` from `xray.go` (the source's own spelling). -/
structure ResetAPIInfo where
  ID : String
  Stage : String
deriving DecidableEq, Repr

/-- Insert into a `mapset`-style set modelled as a duplicate-free list. -/
def setAdd {α : Type} [DecidableEq α] (l : List α) (a : α) : List α :=
  if a ∈ l then l else l ++ [a]

/-- `mapset.Append`: insert each element in turn. -/
def setAppend {α : Type} [DecidableEq α] (l : List α) (as : List α) : List α :=
  as.foldl setAdd l

structure TraverseTraceInfo where
  startTime : ℚ
  endTime : ℚ
  restAPIs : List ResetAPIInfo
  reqIDs : List String
  traceIDs : List String
  logGroups : List String
  /-- Ghost field: trace ids fetched so far, in order of fetch. -/
  fetchLog : List String
deriving DecidableEq, Repr

/-- The values `traverseTrace` extracts from one parsed segment document. -/
structure DocInfo where
  reqID : Option String
  startT : Option ℚ
  endT : Option ℚ
  api : Option ResetAPIInfo
  logGroups : List String
  links : List String
deriving DecidableEq, Repr

/-- The `rest_api_id` / sibling-`stage` extraction from `xray.go`: find the
first `$.aws.api_gateway.rest_api_id` match, then look up `@.stage` on the
matched node's parent; the pair is produced only when both are present. -/
def extractAPIStage (root : Json) : Except String (Option ResetAPIInfo) :=
  match extractRestAPI root with
  | .error e => .error e
  | .ok none => .ok none
  | .ok (some m) =>
    match atMostOneStr (getKey m.1 "stage") with
    | .error e => .error e
    | .ok none => .ok none
    | .ok (some stg) => .ok (some ⟨m.2, stg⟩)

/-- All extractions `traverseTrace` performs on one segment document, in the
source's order; the first failing extraction aborts.  The Go code interleaves
each extraction with its state update; since every extraction is a pure
function of the document and an error aborts the whole traversal (the caller
discards the partially mutated state), extracting first (`extractDoc`) and
applying afterwards (`applyDoc`) is observationally the same. -/
def extractDoc (root : Json) : Except String DocInfo :=
  match atMostOneStr (pathKeys root ["aws", "request_id"]) with
  | .error e => .error e
  | .ok reqOpt =>
    match atMostOneNum (pathKeys root ["start_time"]) with
    | .error e => .error e
    | .ok stOpt =>
      match atMostOneNum (pathKeys root ["end_time"]) with
      | .error e => .error e
      | .ok enOpt =>
        match extractAPIStage root with
        | .error e => .error e
        | .ok apiOpt =>
          match multiStringV
              ((pathKeys root ["aws", "cloudwatch_logs"]).flatMap
                (fun n => recDesc n "log_group")) with
          | .error e => .error e
          | .ok lgs =>
            match multiStringV
                ((pathKeys root ["links"]).flatMap
                  (fun n => recDesc n "trace_id")) with
            | .error e => .error e
            | .ok lnks => .ok ⟨reqOpt, stOpt, enOpt, apiOpt, lgs, lnks⟩

/-- Apply one segment document's extracted values to the traversal state:
union the request id, running min/max on the times (absence leaves the
aggregate untouched), record the API pair, union the explicit log groups. -/
def applyDoc (ti : TraverseTraceInfo) (d : DocInfo) : TraverseTraceInfo :=
  { ti with
    reqIDs := match d.reqID with
      | some v => setAdd ti.reqIDs v
      | none => ti.reqIDs
    startTime := match d.startT with
      | some n => mathMin n ti.startTime
      | none => ti.startTime
    endTime := match d.endT with
      | some n => mathMax n ti.endTime
      | none => ti.endTime
    restAPIs := match d.api with
      | some p => setAdd ti.restAPIs p
      | none => ti.restAPIs
    logGroups := setAppend ti.logGroups d.logGroups }

/-! ## The trace store and the traversal -/

/-- One X-Ray segment: an optional document string, which either fails to
parse (`some (.error _)`, mirroring an `ajson.Unmarshal` failure) or parses
to a `Json` tree. -/
structure Segment where
  document : Option (Except String Json)

structure Trace where
  segments : List Segment

/-- The backing trace store: a finite map from trace id to the outcome of
`BatchGetTraces` for that id.  Ids outside the map fetch successfully with
zero trace documents (AWS reports unknown ids as unprocessed, not found). -/
abbrev TraceStore : Type := List (String × Except String (List Trace))

def fetchTraces (store : TraceStore) (tid : String) : Except String (List Trace) :=
  match List.lookup tid store with
  | some r => r
  | none => .ok []

mutual

/-- `traverseTrace` from `xray.go`.  `none` means the fuel ran out (fuel is
decremented at every recursive call); `some (.error e)` is the Go error
return; `some (.ok ti)` is normal completion with the updated state. -/
def traverseTrace (store : TraceStore) : Nat → String → TraverseTraceInfo →
    Option (Except String TraverseTraceInfo)
  | 0, _, _ => none
  | fuel + 1, tid, ti =>
    if tid ∈ ti.traceIDs then some (.ok ti)
    else
      match fetchTraces store tid with
      | .error e => some (.error ("BatchGetTraces: " ++ e))
      | .ok traces =>
        let ti' := { ti with
          fetchLog := ti.fetchLog ++ [tid]
          traceIDs := setAdd ti.traceIDs tid }
        if traces.isEmpty then some (.ok ti')
        else goSegments store fuel (traces.flatMap Trace.segments) ti'

/-- The nested `for traces / for segments` loops of `traverseTrace`,
flattened over the segment list: skip document-less segments, abort on a
parse or extraction failure, otherwise fold the document into the state and
recurse into its outbound links before the next segment. -/
def goSegments (store : TraceStore) : Nat → List Segment → TraverseTraceInfo →
    Option (Except String TraverseTraceInfo)
  | 0, _, _ => none
  | _ + 1, [], ti => some (.ok ti)
  | fuel + 1, s :: ss, ti =>
    match s.document with
    | none => goSegments store fuel ss ti
    | some (.error e) => some (.error ("ajson.Unmarshal: " ++ e))
    | some (.ok root) =>
      match extractDoc root with
      | .error e => some (.error e)
      | .ok d =>
        match goLinks store fuel d.links (applyDoc ti d) with
        | none => none
        | some (.error e) => some (.error e)
        | some (.ok ti') => goSegments store fuel ss ti'

/-- The `for _, tid := range vs` recursion over a segment's outbound links. -/
def goLinks (store : TraceStore) : Nat → List String → TraverseTraceInfo →
    Option (Except String TraverseTraceInfo)
  | 0, _, _ => none
  | _ + 1, [], ti => some (.ok ti)
  | fuel + 1, l :: ls, ti =>
    match traverseTrace store fuel l ti with
    | none => none
    | some (.error e) => some (.error e)
    | some (.ok ti') => goLinks store fuel ls ti'

end

/-! ## The aggregator -/

/-- The initial state built at the top of `GatherLogInfo`: empty sets, the
minimum seeded with `math.MaxFloat64` and the maximum with zero. -/
def maxFloat64 : ℚ :=
  mkRat 179769313486231570814527423731704356798070567525844996598917476803157260780028538760589558632766878171540458953514382464234321326889464182768467546703537516986049910576551282076245490090389328944075868508455133942304583236903222948165808559332123348274797826204144723168738177180919299881250404026184124858368 1

def initTI : TraverseTraceInfo :=
  { startTime := maxFloat64, endTime := 0, restAPIs := [], reqIDs := [],
    traceIDs := [], logGroups := [], fetchLog := [] }

/-- Go's `int64(f)` conversion of a float: truncation toward zero. -/
def i64 (q : ℚ) : Int := q.num.tdiv q.den

structure LogInfo where
  TraceIDs : List String
  RequestIDs : List String
  LogGroups : List String
  /-- Epoch seconds of the `StartTime` (`time.Unix(int64(startTime)-1, 0)`). -/
  StartTime : Int
  /-- Epoch seconds of the `EndTime` (`time.Unix(int64(endTime)+1, 0)`). -/
  EndTime : Int
deriving DecidableEq, Repr

/-- Outcome of the `DescribeSubscriptionFilters` probe for one log-group
name: success, the distinguished `ResourceNotFoundException`, or any other
failure. -/
inductive ProbeResult where
  | found
  | notFound
  | otherError (e : String)
deriving DecidableEq, Repr

/-- The deterministic API-gateway execution-log naming convention. -/
def apiLogGroupName (e : ResetAPIInfo) : String :=
  "API-Gateway-Execution-Logs_" ++ e.ID ++ "/" ++ e.Stage

/-- The probe loop of `GatherLogInfo`: for each discovered pair, probe the
conventional log-group name; add it on success, skip it on not-found, abort
on any other failure. -/
def resolveRestAPIs (probe : String → ProbeResult) :
    List ResetAPIInfo → TraverseTraceInfo → Except String TraverseTraceInfo
  | [], ti => .ok ti
  | e :: es, ti =>
    match probe (apiLogGroupName e) with
    | .found =>
      resolveRestAPIs probe es
        { ti with logGroups := setAdd ti.logGroups (apiLogGroupName e) }
    | .notFound => resolveRestAPIs probe es ti
    | .otherError err => .error ("DescribeSubscriptionFilters: " ++ err)

/-- `GatherLogInfo` from `xray.go`.  `some (.ok none)` is the Go
`(nil, nil)` return (absent result); `some (.ok (some li))` the populated
result; `some (.error e)` an error; `none` means the traversal fuel ran
out. -/
def GatherLogInfo (store : TraceStore) (probe : String → ProbeResult)
    (fuel : Nat) (tid : String) : Option (Except String (Option LogInfo)) :=
  match traverseTrace store fuel tid initTI with
  | none => none
  | some (.error e) => some (.error e)
  | some (.ok ti) =>
    if ti.traceIDs.length = 0 then some (.ok none)
    else
      match resolveRestAPIs probe ti.restAPIs ti with
      | .error e => some (.error e)
      | .ok ti' =>
        some (.ok (some
          { TraceIDs := ti'.traceIDs
            RequestIDs := ti'.reqIDs
            LogGroups := ti'.logGroups
            StartTime := i64 ti'.startTime - 1
            EndTime := i64 ti'.endTime + 1 }))

/-! ## Observations of the trace graph

Pure functions reading the store, used to state properties of the
traversal: the outbound links of a trace id, reachability, and the start /
end times carried by the documents of a list of trace ids.  On segments the
traversal handles without error these agree with what it extracts; segments
whose document is absent or fails extraction contribute nothing (the
traversal aborts on the latter, so successful runs never meet them). -/

/-- The outbound link ids a segment's document carries. -/
def segLinks (s : Segment) : List String :=
  match s.document with
  | none => []
  | some (.error _) => []
  | some (.ok root) =>
    match extractDoc root with
    | .error _ => []
    | .ok d => d.links

/-- All outbound link ids of the traces a fetch of `tid` returns. -/
def traceLinks (store : TraceStore) (tid : String) : List String :=
  match fetchTraces store tid with
  | .error _ => []
  | .ok traces => (traces.flatMap Trace.segments).flatMap segLinks

/-- Trace ids reachable from the root along outbound links. -/
inductive Reachable (store : TraceStore) (root : String) : String → Prop where
  | refl : Reachable store root root
  | step : ∀ x y, Reachable store root x → y ∈ traceLinks store x →
      Reachable store root y

/-- The start times a segment's document carries. -/
def segStarts (s : Segment) : List ℚ :=
  match s.document with
  | none => []
  | some (.error _) => []
  | some (.ok root) =>
    match extractDoc root with
    | .error _ => []
    | .ok d => d.startT.toList

/-- The end times a segment's document carries. -/
def segEnds (s : Segment) : List ℚ :=
  match s.document with
  | none => []
  | some (.error _) => []
  | some (.ok root) =>
    match extractDoc root with
    | .error _ => []
    | .ok d => d.endT.toList

/-- All start times observed when fetching every id in `ids`, in order. -/
def startsOf (store : TraceStore) (ids : List String) : List ℚ :=
  ids.flatMap (fun tid =>
    match fetchTraces store tid with
    | .error _ => []
    | .ok traces => (traces.flatMap Trace.segments).flatMap segStarts)

/-- All end times observed when fetching every id in `ids`, in order. -/
def endsOf (store : TraceStore) (ids : List String) : List ℚ :=
  ids.flatMap (fun tid =>
    match fetchTraces store tid with
    | .error _ => []
    | .ok traces => (traces.flatMap Trace.segments).flatMap segEnds)

/-- Running minimum over a list. -/
def foldMin (a : ℚ) (l : List ℚ) : ℚ := l.foldl min a

/-- Running maximum over a list. -/
def foldMax (a : ℚ) (l : List ℚ) : ℚ := l.foldl max a

/-- Un-visited portion of the store's domain: the termination measure of the
traversal. -/
def traceMeasure (store : TraceStore) (ti : TraverseTraceInfo) : Nat :=
  ((store.map Prod.fst).toFinset \ ti.traceIDs.toFinset).card

/-! ## The query lifecycle controller

`getResult` from `main.go`, as a pure function of a script of poll
outcomes.  The caller context is modelled by the index of the first
cancellation checkpoint at which it reports done: iteration `i` checks the
context at checkpoint `2*i` (the `select` at the top of the loop) and, when
sleeping, at checkpoint `2*i+1` (the `select` racing `ctx.Done()` against
the backoff timer).  A context is cancelled from some checkpoint onward or
never — cancellation is monotone. -/

inductive QueryStatus where
  | scheduled
  | running
  | complete
  | failed
  | other (s : String)
deriving DecidableEq, Repr

/-- `types.QueryStatistics`: an opaque snapshot of three float counters. -/
structure QueryStatistics where
  BytesScanned : ℚ
  RecordsMatched : ℚ
  RecordsScanned : ℚ
deriving DecidableEq, Repr

/-- One matched record: ordered `{field, value}` string pairs. -/
abbrev ResultRow : Type := List (String × String)

/-- One `GetQueryResults` call's outcome. -/
inductive PollOutcome where
  | transportError (e : String)
  | ok (status : QueryStatus) (stats : QueryStatistics) (results : List ResultRow)
deriving DecidableEq, Repr

/-- One `boff.NextBackOff()` answer. -/
inductive BackoffStep where
  | stop
  | wait (seconds : ℚ)
deriving DecidableEq, Repr

/-- The distinct ways `getResult` returns a non-nil error. `scriptExhausted`
is a model artifact marking that the scripted poll outcomes ran out (the
real query service always answers). -/
inductive RunError where
  | cancelled
  | transport (e : String)
  | backoffStop
  | statusError (s : QueryStatus)
  | scriptExhausted
deriving DecidableEq, Repr

/-- Whether the caller context is done at a given checkpoint. -/
def ctxDone (cancelAt : Option Nat) (checkpoint : Nat) : Bool :=
  match cancelAt with
  | none => false
  | some k => decide (k ≤ checkpoint)

/-- `m[*e.Field] = *e.Value` over one row: a string map built by insertion,
later pairs overwriting earlier ones with the same field name. -/
def mapInsert (m : List (String × String)) (k v : String) : List (String × String) :=
  if m.any (fun p => p.1 = k) then m.map (fun p => if p.1 = k then (k, v) else p)
  else m ++ [(k, v)]

def rowToObject (r : ResultRow) : List (String × String) :=
  r.foldl (fun m e => mapInsert m e.1 e.2) []

/-- What the polling loop produced: the return value, whether `done` was
set, the JSON objects written to the output stream in order, and the last
statistics snapshot seen. -/
structure LoopResult where
  ret : Except RunError Unit
  done : Bool
  emitted : List (List (String × String))
  lastStat : Option QueryStatistics
deriving Repr

/-- The `for` loop of `getResult`: check the context, poll, record the
statistics, then branch on the status exactly as the `switch` does. -/
def pollLoop (boff : Nat → BackoffStep) (cancelAt : Option Nat) :
    List PollOutcome → Nat → Option QueryStatistics →
    List (List (String × String)) → LoopResult
  | script, i, lastStat, emitted =>
    if ctxDone cancelAt (2 * i) then
      ⟨.error .cancelled, false, emitted, lastStat⟩
    else
      match script with
      | [] => ⟨.error .scriptExhausted, false, emitted, lastStat⟩
      | .transportError e :: _ =>
        ⟨.error (.transport ("GetQueryResultsWithContext: " ++ e)), false,
          emitted, lastStat⟩
      | .ok status stats results :: rest =>
        match status with
        | .scheduled | .running =>
          match boff i with
          | .stop => ⟨.error .backoffStop, false, emitted, some stats⟩
          | .wait _ =>
            if ctxDone cancelAt (2 * i + 1) then
              ⟨.error .cancelled, false, emitted, some stats⟩
            else
              pollLoop boff cancelAt rest (i + 1) (some stats) emitted
        | .complete =>
          ⟨.ok (), true, emitted ++ results.map rowToObject, some stats⟩
        | .failed => ⟨.error (.statusError .failed), true, emitted, some stats⟩
        | .other s =>
          ⟨.error (.statusError (.other s)), false, emitted, some stats⟩

/-- The deferred `StopQuery` call: issued on a fresh 3-second context
independent of the caller's, and whether it succeeded (its failure is only
logged). -/
structure StopCall where
  independentCtx : Bool
  timeoutSeconds : Nat
  succeeded : Bool
deriving DecidableEq, Repr

/-- Everything observable about one `getResult` call: the loop's outcome
plus the deferred effects — the `StopQuery` calls issued (zero or one) and
the final statistics written to the stat sink. -/
structure RunResult where
  ret : Except RunError Unit
  done : Bool
  emitted : List (List (String × String))
  stopCalls : List StopCall
  statWritten : Option QueryStatistics
deriving Repr

/-- `getResult` from `main.go`: run the polling loop, then discharge the
deferred obligations — `StopQuery` exactly when `done` was never set (on a
background context with a 3-second timeout, its outcome `stopOk` never
touching the returned error), and one write of the last statistics
snapshot. -/
def getResult (boff : Nat → BackoffStep) (cancelAt : Option Nat)
    (script : List PollOutcome) (stopOk : Bool) : RunResult :=
  let r := pollLoop boff cancelAt script 0 none []
  { ret := r.ret
    done := r.done
    emitted := r.emitted
    stopCalls :=
      if r.done then []
      else [{ independentCtx := true, timeoutSeconds := 3, succeeded := stopOk }]
    statWritten := r.lastStat }

/-! ## Query-text augmentation (trace-driven mode of `run`) -/

/-- Go's `%q` verb on the strings at hand: double-quote, escaping
backslashes and quotes (the claims never exercise control characters, whose
`%q` escapes are not modelled). -/
def goQuote (s : String) : String :=
  "\"" ++ String.join (s.data.map (fun c =>
    if c = '"' then "\\\"" else if c = '\\' then "\\\\" else String.singleton c))
    ++ "\""

/-- The first loop of the augmentation: one `@message like` match per trace
id, separated by ` or ` from the second onward (`if i > 0`). -/
def appendTraceFilters : String → Nat → List String → String
  | q, _, [] => q
  | q, i, e :: es =>
    let q' := if i > 0 then q ++ " or " else q
    appendTraceFilters (q' ++ "@message like " ++ goQuote e) (i + 1) es

/-- The second loop: each request id appends an ` or @requestId = ... or
@message like ...` pair. -/
def appendRequestFilters : String → List String → String
  | q, [] => q
  | q, e :: es =>
    appendRequestFilters
      (q ++ " or @requestId = " ++ goQuote e ++ " or @message like " ++ goQuote e)
      es

/-- The query text submitted in trace-driven mode: the file's query text
plus the filter clause built from the gathered `LogInfo`. -/
def buildQuery (q : String) (li : LogInfo) : String :=
  appendRequestFilters
    (appendTraceFilters (q ++ "\n| filter ") 0 li.TraceIDs)
    li.RequestIDs

/-- Modelled from the spec: one trace-id match of the filter-clause grammar,
matching the trace id against the message body. -/
def traceIDMatch (e : String) : String := "@message like " ++ goQuote e

/-- Modelled from the spec: the two request-id matches one discovered
request id contributes — a structured request-id field match and a message
body match. -/
def requestIDMatches (e : String) : List String :=
  ["@requestId = " ++ goQuote e, "@message like " ++ goQuote e]

/-- Modelled from the spec: `<m1> or <m2> or ... or <mk>`. -/
def joinOr : List String → String
  | [] => ""
  | x :: xs => x ++ String.join (xs.map (fun y => " or " ++ y))

/-- Modelled from the spec: the whole clause
`| filter <trace-id-match> or ... or <request-id-match> or ...`. -/
def filterClauseSpec (li : LogInfo) : String :=
  "| filter " ++
    joinOr (li.TraceIDs.map traceIDMatch ++ li.RequestIDs.flatMap requestIDMatches)

/-! ## Predicates about traversal runs -/

/-- Bookkeeping invariant tying the ghost fetch log to the visited set: they
hold the same ids, each exactly once. -/
def TIinv (ti : TraverseTraceInfo) : Prop :=
  (∀ x, x ∈ ti.traceIDs ↔ x ∈ ti.fetchLog) ∧
    ti.traceIDs.Nodup ∧ ti.fetchLog.Nodup

/-- How one traversal call moves the state: the fetch log and the visited
set only grow at the end, and the bookkeeping invariant is preserved. -/
def StateEvo (ti tf : TraverseTraceInfo) : Prop :=
  (∃ nf, tf.fetchLog = ti.fetchLog ++ nf) ∧
    (∃ nv, tf.traceIDs = ti.traceIDs ++ nv) ∧ (TIinv ti → TIinv tf)

/-- Every id newly visited between `ti` and `tf` has had all its outbound
links visited by `tf`: the closure property that makes the final visited set
contain everything reachable. -/
def GoodNew (store : TraceStore) (ti tf : TraverseTraceInfo) : Prop :=
  ∀ x, x ∈ tf.traceIDs → x ∉ ti.traceIDs →
    ∀ y, y ∈ traceLinks store x → y ∈ tf.traceIDs

/-! ## Concrete fixtures -/

/-- A document whose only content is one outbound link. -/
def docLinkTo (t : String) : Json :=
  .obj [("links", .arr [.obj [("trace_id", .str t)]])]

/-- A two-trace store whose link structure is the cycle `A → B → A`. -/
def storeCycle : TraceStore :=
  [("A", .ok [⟨[⟨some (.ok (docLinkTo "B"))⟩]⟩]),
   ("B", .ok [⟨[⟨some (.ok (docLinkTo "A"))⟩]⟩])]

/-- The state the traversal of `storeCycle` from `A` ends in. -/
def tfCycle : TraverseTraceInfo :=
  { initTI with traceIDs := ["A", "B"], fetchLog := ["A", "B"] }

/-- A store whose root fetch succeeds but returns zero trace documents. -/
def storeEmptyRoot : TraceStore := [("R", .ok [])]

/-- A one-trace store whose single segment carries `start_time = 10.5` and a
negative `end_time = -2`. -/
def docTimesNeg : Json :=
  .obj [("start_time", .num (mkRat 21 2)), ("end_time", .num (mkRat (-2) 1))]

def storeTimesNeg : TraceStore := [("T", .ok [⟨[⟨some (.ok docTimesNeg)⟩]⟩])]

/-- A one-trace store whose single segment carries `start_time = 5.5` and
`end_time = 9.25`. -/
def docTimesPos : Json :=
  .obj [("start_time", .num (mkRat 11 2)), ("end_time", .num (mkRat 37 4))]

def storeTimesPos : TraceStore := [("T", .ok [⟨[⟨some (.ok docTimesPos)⟩]⟩])]

/-- The state the traversal of `storeTimesPos` from `T` ends in. -/
def tfTimesPos : TraverseTraceInfo :=
  { initTI with
    startTime := mkRat 11 2
    endTime := mkRat 37 4
    traceIDs := ["T"]
    fetchLog := ["T"] }

/-- A document carrying an API-gateway identity `{x, y}` and, as an explicit
log-group reference, the very name the identity's convention produces. -/
def docApiCollide : Json :=
  .obj [("aws", .obj [
    ("api_gateway", .obj [("rest_api_id", .str "x"), ("stage", .str "y")]),
    ("cloudwatch_logs",
      .obj [("log_group", .str "API-Gateway-Execution-Logs_x/y")])])]

def storeApiCollide : TraceStore := [("T", .ok [⟨[⟨some (.ok docApiCollide)⟩]⟩])]

/-- The state the traversal of `storeApiCollide` from `T` ends in. -/
def tfApiCollide : TraverseTraceInfo :=
  { initTI with
    restAPIs := [⟨"x", "y"⟩]
    traceIDs := ["T"]
    fetchLog := ["T"]
    logGroups := ["API-Gateway-Execution-Logs_x/y"] }

/-- A document carrying only an API-gateway identity `{x, y}`. -/
def docApiOnly : Json :=
  .obj [("aws", .obj
    [("api_gateway", .obj [("rest_api_id", .str "x"), ("stage", .str "y")])])]

def storeApiOnly : TraceStore := [("T", .ok [⟨[⟨some (.ok docApiOnly)⟩]⟩])]

/-- The state the traversal of `storeApiOnly` from `T` ends in. -/
def tfApiOnly : TraverseTraceInfo :=
  { initTI with restAPIs := [⟨"x", "y"⟩], traceIDs := ["T"], fetchLog := ["T"] }

/-- A document whose `rest_api_id` is present but whose parent carries no
`stage` sibling. -/
def docApiNoStage : Json :=
  .obj [("aws", .obj [("api_gateway", .obj [("rest_api_id", .str "x")])])]

/-- Distinct statistics snapshots for the polling scenarios. -/
def statA : QueryStatistics := ⟨1, 2, 3⟩

def statB : QueryStatistics := ⟨4, 5, 6⟩

def statC : QueryStatistics := ⟨7, 8, 9⟩

/-- A backoff policy that always waits one second. -/
def boffOne : Nat → BackoffStep := fun _ => .wait 1

/-- A first result page of three rows. -/
def rowsPage1 : List ResultRow := [[("f", "1")], [("f", "2")], [("f", "3")]]

/-- A second result page of two rows. -/
def rowsPage2 : List ResultRow := [[("f", "4")], [("f", "5")]]

/-- A small `LogInfo` for exercising the filter-clause builder. -/
def liW : LogInfo := ⟨["tid1", "tid2"], ["rid1"], [], 0, 0⟩

/-! # Lemmas

## Set-as-list operations -/

theorem mem_setAdd {α : Type} [DecidableEq α] {l : List α} {a x : α} :
    x ∈ setAdd l a ↔ x ∈ l ∨ x = a := by
  unfold setAdd
  split
  · exact ⟨Or.inl, fun h => h.elim id (fun hx => hx ▸ by assumption)⟩
  · simp

theorem setAdd_eq_append {α : Type} [DecidableEq α] {l : List α} {a : α}
    (h : a ∉ l) : setAdd l a = l ++ [a] := by
  simp [setAdd, h]

theorem setAdd_append {α : Type} [DecidableEq α] (l : List α) (a : α) :
    ∃ n, setAdd l a = l ++ n := by
  unfold setAdd
  split
  · exact ⟨[], by simp⟩
  · exact ⟨[a], rfl⟩

theorem setAdd_nodup {α : Type} [DecidableEq α] {l : List α} (a : α)
    (h : l.Nodup) : (setAdd l a).Nodup := by
  unfold setAdd
  split
  · exact h
  · simp_all [List.nodup_append]

theorem setAppend_append {α : Type} [DecidableEq α] (as l : List α) :
    ∃ n, setAppend l as = l ++ n := by
  induction as generalizing l with
  | nil => exact ⟨[], by simp [setAppend]⟩
  | cons a as ih =>
    obtain ⟨n1, h1⟩ := setAdd_append l a
    obtain ⟨n2, h2⟩ := ih (setAdd l a)
    exact ⟨n1 ++ n2, by simp [setAppend] at h2 ⊢; rw [h2, h1, List.append_assoc]⟩

/-! ## Running minimum and maximum -/

theorem mathMin_eq_min (x y : ℚ) : mathMin x y = min x y := by
  simp [mathMin, min_def]

theorem mathMax_eq_max (x y : ℚ) : mathMax x y = max x y := by
  simp [mathMax, max_def]

theorem foldMin_nil (a : ℚ) : foldMin a [] = a := rfl

theorem foldMin_cons (a x : ℚ) (l : List ℚ) :
    foldMin a (x :: l) = foldMin (min a x) l := rfl

theorem foldMin_append (a : ℚ) (l m : List ℚ) :
    foldMin a (l ++ m) = foldMin (foldMin a l) m := by
  simp [foldMin, List.foldl_append]

theorem foldMin_min_out (l : List ℚ) : ∀ a b : ℚ,
    foldMin (min a b) l = min (foldMin a l) b := by
  induction l with
  | nil => intro a b; rfl
  | cons x l ih =>
    intro a b
    rw [foldMin_cons, min_right_comm, ih, foldMin_cons]

theorem foldMin_comm (l : List ℚ) : ∀ (m : List ℚ) (a : ℚ),
    foldMin (foldMin a l) m = foldMin (foldMin a m) l := by
  induction l with
  | nil => intro m a; rfl
  | cons x l ih =>
    intro m a
    rw [foldMin_cons, ih, foldMin_cons, ← foldMin_min_out]

theorem foldMin_le (a : ℚ) (l : List ℚ) : foldMin a l ≤ a := by
  induction l generalizing a with
  | nil => exact le_refl a
  | cons x l ih => exact le_trans (ih (min a x)) (min_le_left a x)

theorem foldMax_nil (a : ℚ) : foldMax a [] = a := rfl

theorem foldMax_cons (a x : ℚ) (l : List ℚ) :
    foldMax a (x :: l) = foldMax (max a x) l := rfl

theorem foldMax_append (a : ℚ) (l m : List ℚ) :
    foldMax a (l ++ m) = foldMax (foldMax a l) m := by
  simp [foldMax, List.foldl_append]

theorem foldMax_max_out (l : List ℚ) : ∀ a b : ℚ,
    foldMax (max a b) l = max (foldMax a l) b := by
  induction l with
  | nil => intro a b; rfl
  | cons x l ih =>
    intro a b
    rw [foldMax_cons, sup_right_comm, ih, foldMax_cons]

theorem foldMax_comm (l : List ℚ) : ∀ (m : List ℚ) (a : ℚ),
    foldMax (foldMax a l) m = foldMax (foldMax a m) l := by
  induction l with
  | nil => intro m a; rfl
  | cons x l ih =>
    intro m a
    rw [foldMax_cons, ih, foldMax_cons, ← foldMax_max_out]

theorem le_foldMax (a : ℚ) (l : List ℚ) : a ≤ foldMax a l := by
  induction l generalizing a with
  | nil => exact le_refl a
  | cons x l ih => exact le_trans (le_max_left a x) (ih (max a x))

/-! ## Store lookups -/

theorem lookup_some_mem {β : Type} {l : List (String × β)} {a : String} {b : β}
    (h : List.lookup a l = some b) : a ∈ l.map Prod.fst := by
  induction l with
  | nil => simp [List.lookup] at h
  | cons p l ih =>
    rw [List.lookup] at h
    split at h
    · simp_all [beq_iff_eq]
    · simpa using Or.inr (ih h)

/-! ## Fuel monotonicity of the traversal

Raising the fuel never changes a result that was already delivered. -/

theorem travMono (store : TraceStore) : ∀ f : Nat,
    (∀ tid ti r, traverseTrace store f tid ti = some r →
      traverseTrace store (f + 1) tid ti = some r) ∧
    (∀ ss ti r, goSegments store f ss ti = some r →
      goSegments store (f + 1) ss ti = some r) ∧
    (∀ ls ti r, goLinks store f ls ti = some r →
      goLinks store (f + 1) ls ti = some r) := by
  intro f
  induction f with
  | zero =>
    refine ⟨fun tid ti r h => ?_, fun ss ti r h => ?_, fun ls ti r h => ?_⟩ <;>
      simp [traverseTrace, goSegments, goLinks] at h
  | succ f ih =>
    obtain ⟨ihT, ihS, ihL⟩ := ih
    refine ⟨fun tid ti r h => ?_, fun ss ti r h => ?_, fun ls ti r h => ?_⟩
    · by_cases hmem : tid ∈ ti.traceIDs
      · simpa [traverseTrace, hmem] using h
      · cases hf : fetchTraces store tid with
        | error e => simp_all [traverseTrace, hmem, hf]
        | ok traces =>
          cases hemp : traces.isEmpty with
          | true => simp_all [traverseTrace, hmem, hf, hemp]
          | false =>
            simp only [traverseTrace, hf, hemp, Bool.false_eq_true,
              if_neg hmem, if_false] at h ⊢
            exact ihS _ _ _ h
    · cases ss with
      | nil => simpa [goSegments] using h
      | cons s ss =>
        cases hdoc : s.document with
        | none =>
          simp only [goSegments, hdoc] at h ⊢
          exact ihS _ _ _ h
        | some d =>
          cases d with
          | error e => simp_all [goSegments, hdoc]
          | ok root =>
            cases hex : extractDoc root with
            | error e => simp_all [goSegments, hdoc, hex]
            | ok dd =>
              cases hgl : goLinks store f dd.links (applyDoc ti dd) with
              | none => simp [goSegments, hdoc, hex, hgl] at h
              | some res =>
                have hgl' := ihL _ _ _ hgl
                cases res with
                | error e =>
                  simp only [goSegments, hdoc, hex, hgl, hgl'] at h ⊢
                  exact h
                | ok ti' =>
                  simp only [goSegments, hdoc, hex, hgl, hgl'] at h ⊢
                  exact ihS _ _ _ h
    · cases ls with
      | nil => simpa [goLinks] using h
      | cons l ls =>
        cases htt : traverseTrace store f l ti with
        | none => simp [goLinks, htt] at h
        | some res =>
          have htt' := ihT _ _ _ htt
          cases res with
          | error e =>
            simp only [goLinks, htt, htt'] at h ⊢
            exact h
          | ok ti' =>
            simp only [goLinks, htt, htt'] at h ⊢
            exact ihL _ _ _ h

/-- `travMono`, iterated to any larger fuel. -/
theorem travMonoLe (store : TraceStore) {f g : Nat} (hfg : f ≤ g) :
    (∀ tid ti r, traverseTrace store f tid ti = some r →
      traverseTrace store g tid ti = some r) ∧
    (∀ ss ti r, goSegments store f ss ti = some r →
      goSegments store g ss ti = some r) ∧
    (∀ ls ti r, goLinks store f ls ti = some r →
      goLinks store g ls ti = some r) := by
  obtain ⟨d, rfl⟩ := Nat.exists_eq_add_of_le hfg
  clear hfg
  induction d with
  | zero => exact ⟨fun _ _ _ h => h, fun _ _ _ h => h, fun _ _ _ h => h⟩
  | succ d ih =>
    refine ⟨fun tid ti r h => ?_, fun ss ti r h => ?_, fun ls ti r h => ?_⟩
    · rw [← Nat.add_assoc]
      exact (travMono store (f + d)).1 _ _ _ (ih.1 _ _ _ h)
    · rw [← Nat.add_assoc]
      exact (travMono store (f + d)).2.1 _ _ _ (ih.2.1 _ _ _ h)
    · rw [← Nat.add_assoc]
      exact (travMono store (f + d)).2.2 _ _ _ (ih.2.2 _ _ _ h)

/-! ## Structural invariants of the traversal -/

theorem applyDoc_traceIDs (ti : TraverseTraceInfo) (d : DocInfo) :
    (applyDoc ti d).traceIDs = ti.traceIDs := rfl

theorem applyDoc_fetchLog (ti : TraverseTraceInfo) (d : DocInfo) :
    (applyDoc ti d).fetchLog = ti.fetchLog := rfl

theorem stateEvo_refl (ti : TraverseTraceInfo) : StateEvo ti ti :=
  ⟨⟨[], by simp⟩, ⟨[], by simp⟩, id⟩

theorem stateEvo_trans {a b c : TraverseTraceInfo} (h1 : StateEvo a b)
    (h2 : StateEvo b c) : StateEvo a c := by
  obtain ⟨⟨f1, hf1⟩, ⟨v1, hv1⟩, hi1⟩ := h1
  obtain ⟨⟨f2, hf2⟩, ⟨v2, hv2⟩, hi2⟩ := h2
  exact ⟨⟨f1 ++ f2, by rw [hf2, hf1, List.append_assoc]⟩,
    ⟨v1 ++ v2, by rw [hv2, hv1, List.append_assoc]⟩, fun h => hi2 (hi1 h)⟩

theorem stateEvo_mem {a b : TraverseTraceInfo} (h : StateEvo a b) {x : String}
    (hx : x ∈ a.traceIDs) : x ∈ b.traceIDs := by
  obtain ⟨_, ⟨v, hv⟩, _⟩ := h
  rw [hv]
  exact List.mem_append_left _ hx

theorem stateEvo_applyDoc (ti : TraverseTraceInfo) (d : DocInfo) :
    StateEvo ti (applyDoc ti d) :=
  ⟨⟨[], by simp [applyDoc_fetchLog]⟩, ⟨[], by simp [applyDoc_traceIDs]⟩,
    fun h => h⟩

theorem goodNew_of_eq {store : TraceStore} {ti tf : TraverseTraceInfo}
    (h : tf.traceIDs = ti.traceIDs) : GoodNew store ti tf :=
  fun _ hx hnx => absurd (h ▸ hx) hnx

theorem goodNew_trans {store : TraceStore} {a b c : TraverseTraceInfo}
    (hbc : StateEvo b c) (g1 : GoodNew store a b) (g2 : GoodNew store b c) :
    GoodNew store a c := by
  intro x hxc hxa y hy
  by_cases hxb : x ∈ b.traceIDs
  · exact stateEvo_mem hbc (g1 x hxb hxa y hy)
  · exact g2 x hxc hxb y hy

theorem tiinv_add {ti : TraverseTraceInfo} {tid : String}
    (hmem : tid ∉ ti.traceIDs) : TIinv ti →
    TIinv { ti with fetchLog := ti.fetchLog ++ [tid],
                    traceIDs := setAdd ti.traceIDs tid } := by
  rintro ⟨eqv, ndV, ndF⟩
  have hF : tid ∉ ti.fetchLog := fun hf => hmem ((eqv tid).mpr hf)
  refine ⟨fun x => ?_, ?_, ?_⟩
  · simp [setAdd_eq_append hmem, eqv x]
  · simp [setAdd_eq_append hmem, List.nodup_append, ndV, hmem]
  · simp [List.nodup_append, ndF, hF]

theorem stateEvo_add {ti : TraverseTraceInfo} {tid : String}
    (hmem : tid ∉ ti.traceIDs) :
    StateEvo ti { ti with fetchLog := ti.fetchLog ++ [tid],
                          traceIDs := setAdd ti.traceIDs tid } :=
  ⟨⟨[tid], rfl⟩, ⟨[tid], by simp [setAdd_eq_append hmem]⟩, tiinv_add hmem⟩

theorem traceLinks_of_fetch {store : TraceStore} {tid : String}
    {traces : List Trace} (hf : fetchTraces store tid = .ok traces) :
    traceLinks store tid = (traces.flatMap Trace.segments).flatMap segLinks := by
  simp [traceLinks, hf]

theorem segLinks_none {s : Segment} (hdoc : s.document = none) :
    segLinks s = [] := by
  simp [segLinks, hdoc]

theorem segLinks_ok {s : Segment} {root : Json} {d : DocInfo}
    (hdoc : s.document = some (.ok root)) (hex : extractDoc root = .ok d) :
    segLinks s = d.links := by
  simp [segLinks, hdoc, hex]

/-- The central invariant of one traversal call, by mutual induction on the
fuel: the state only grows (`StateEvo`), the argument's obligation is met
(root visited / segment links visited / listed links visited), and every
newly visited id has all its outbound links visited (`GoodNew`). -/
theorem travInv (store : TraceStore) : ∀ f : Nat,
    (∀ tid ti tf, traverseTrace store f tid ti = some (.ok tf) →
      StateEvo ti tf ∧ tid ∈ tf.traceIDs ∧ GoodNew store ti tf) ∧
    (∀ ss ti tf, goSegments store f ss ti = some (.ok tf) →
      StateEvo ti tf ∧ (∀ s ∈ ss, ∀ y ∈ segLinks s, y ∈ tf.traceIDs) ∧
        GoodNew store ti tf) ∧
    (∀ ls ti tf, goLinks store f ls ti = some (.ok tf) →
      StateEvo ti tf ∧ (∀ l ∈ ls, l ∈ tf.traceIDs) ∧ GoodNew store ti tf) := by
  intro f
  induction f with
  | zero =>
    refine ⟨fun tid ti tf h => ?_, fun ss ti tf h => ?_, fun ls ti tf h => ?_⟩ <;>
      simp [traverseTrace, goSegments, goLinks] at h
  | succ f ih =>
    obtain ⟨ihT, ihS, ihL⟩ := ih
    refine ⟨fun tid ti tf h => ?_, fun ss ti tf h => ?_, fun ls ti tf h => ?_⟩
    · by_cases hmem : tid ∈ ti.traceIDs
      · simp only [traverseTrace, if_pos hmem, Option.some.injEq,
          Except.ok.injEq] at h
        subst h
        exact ⟨stateEvo_refl ti, hmem, goodNew_of_eq rfl⟩
      · cases hf : fetchTraces store tid with
        | error e => simp [traverseTrace, if_neg hmem, hf] at h
        | ok traces =>
          cases hemp : traces.isEmpty with
          | true =>
            have htr : traces = [] := List.isEmpty_iff.mp hemp
            simp only [traverseTrace, if_neg hmem, hf, hemp, if_true,
              Option.some.injEq, Except.ok.injEq] at h
            subst h
            refine ⟨stateEvo_add hmem, ?_, ?_⟩
            · simp [setAdd_eq_append hmem]
            · intro x hx hnx y hy
              have hx' : x = tid := by
                simp [setAdd_eq_append hmem] at hx
                tauto
              subst hx'
              rw [traceLinks_of_fetch hf, htr] at hy
              simp at hy
          | false =>
            simp only [traverseTrace, if_neg hmem, hf, hemp,
              Bool.false_eq_true, if_false] at h
            obtain ⟨evoS, midS, gnS⟩ := ihS _ _ _ h
            have evoA := stateEvo_add hmem
            refine ⟨stateEvo_trans evoA evoS, ?_, ?_⟩
            · exact stateEvo_mem evoS (by simp [setAdd_eq_append hmem])
            · intro x hx hnx y hy
              by_cases hxt : x = tid
              · subst hxt
                rw [traceLinks_of_fetch hf] at hy
                obtain ⟨s, hs, hys⟩ := List.mem_flatMap.mp hy
                exact midS s hs y hys
              · refine gnS x hx ?_ y hy
                simp [setAdd_eq_append hmem, hxt, hnx]
    · cases ss with
      | nil =>
        simp only [goSegments, Option.some.injEq, Except.ok.injEq] at h
        subst h
        exact ⟨stateEvo_refl ti, by simp, goodNew_of_eq rfl⟩
      | cons s ss =>
        cases hdoc : s.document with
        | none =>
          simp only [goSegments, hdoc] at h
          obtain ⟨evo, mid, gn⟩ := ihS _ _ _ h
          refine ⟨evo, ?_, gn⟩
          intro s' hs' y hy
          rcases List.mem_cons.mp hs' with rfl | hs'
          · rw [segLinks_none hdoc] at hy
            simp at hy
          · exact mid s' hs' y hy
        | some dres =>
          cases dres with
          | error e => simp [goSegments, hdoc] at h
          | ok root =>
            cases hex : extractDoc root with
            | error e => simp [goSegments, hdoc, hex] at h
            | ok d =>
              cases hgl : goLinks store f d.links (applyDoc ti d) with
              | none => simp [goSegments, hdoc, hex, hgl] at h
              | some res =>
                cases res with
                | error e => simp [goSegments, hdoc, hex, hgl] at h
                | ok ti1 =>
                  simp only [goSegments, hdoc, hex, hgl] at h
                  obtain ⟨evoL, midL, gnL⟩ := ihL _ _ _ hgl
                  obtain ⟨evo2, mid2, gn2⟩ := ihS _ _ _ h
                  have evoA := stateEvo_applyDoc ti d
                  refine ⟨stateEvo_trans evoA (stateEvo_trans evoL evo2),
                    ?_, ?_⟩
                  · intro s' hs' y hy
                    rcases List.mem_cons.mp hs' with rfl | hs'
                    · rw [segLinks_ok hdoc hex] at hy
                      exact stateEvo_mem evo2 (midL y hy)
                    · exact mid2 s' hs' y hy
                  · refine goodNew_trans evo2 ?_ gn2
                    refine goodNew_trans evoL
                      (goodNew_of_eq (applyDoc_traceIDs ti d)) gnL
    · cases ls with
      | nil =>
        simp only [goLinks, Option.some.injEq, Except.ok.injEq] at h
        subst h
        exact ⟨stateEvo_refl ti, by simp, goodNew_of_eq rfl⟩
      | cons l ls =>
        cases htt : traverseTrace store f l ti with
        | none => simp [goLinks, htt] at h
        | some res =>
          cases res with
          | error e => simp [goLinks, htt] at h
          | ok ti1 =>
            simp only [goLinks, htt] at h
            obtain ⟨evoT, memT, gnT⟩ := ihT _ _ _ htt
            obtain ⟨evoL, midL, gnL⟩ := ihL _ _ _ h
            refine ⟨stateEvo_trans evoT evoL, ?_, goodNew_trans evoL gnT gnL⟩
            intro l' hl'
            rcases List.mem_cons.mp hl' with rfl | hl'
            · exact stateEvo_mem evoL memT
            · exact midL l' hl'

/-! ## The time aggregation invariant -/

theorem segStarts_none {s : Segment} (hdoc : s.document = none) :
    segStarts s = [] := by
  simp [segStarts, hdoc]

theorem segStarts_ok {s : Segment} {root : Json} {d : DocInfo}
    (hdoc : s.document = some (.ok root)) (hex : extractDoc root = .ok d) :
    segStarts s = d.startT.toList := by
  simp [segStarts, hdoc, hex]

theorem segEnds_none {s : Segment} (hdoc : s.document = none) :
    segEnds s = [] := by
  simp [segEnds, hdoc]

theorem segEnds_ok {s : Segment} {root : Json} {d : DocInfo}
    (hdoc : s.document = some (.ok root)) (hex : extractDoc root = .ok d) :
    segEnds s = d.endT.toList := by
  simp [segEnds, hdoc, hex]

theorem startsOf_nil (store : TraceStore) : startsOf store [] = [] := rfl

theorem endsOf_nil (store : TraceStore) : endsOf store [] = [] := rfl

theorem startsOf_append (store : TraceStore) (a b : List String) :
    startsOf store (a ++ b) = startsOf store a ++ startsOf store b := by
  simp [startsOf]

theorem endsOf_append (store : TraceStore) (a b : List String) :
    endsOf store (a ++ b) = endsOf store a ++ endsOf store b := by
  simp [endsOf]

theorem startsOf_cons_ok {store : TraceStore} {tid : String}
    {traces : List Trace} (hf : fetchTraces store tid = .ok traces)
    (ids : List String) :
    startsOf store (tid :: ids) =
      (traces.flatMap Trace.segments).flatMap segStarts ++ startsOf store ids := by
  simp [startsOf, hf]

theorem endsOf_cons_ok {store : TraceStore} {tid : String}
    {traces : List Trace} (hf : fetchTraces store tid = .ok traces)
    (ids : List String) :
    endsOf store (tid :: ids) =
      (traces.flatMap Trace.segments).flatMap segEnds ++ endsOf store ids := by
  simp [endsOf, hf]

theorem applyDoc_startTime (ti : TraverseTraceInfo) (d : DocInfo) :
    (applyDoc ti d).startTime = foldMin ti.startTime d.startT.toList := by
  cases hd : d.startT with
  | none => simp [applyDoc, hd, foldMin_nil]
  | some n =>
    simp [applyDoc, hd, mathMin_eq_min, foldMin_cons, foldMin_nil, min_comm]

theorem applyDoc_endTime (ti : TraverseTraceInfo) (d : DocInfo) :
    (applyDoc ti d).endTime = foldMax ti.endTime d.endT.toList := by
  cases hd : d.endT with
  | none => simp [applyDoc, hd, foldMax_nil]
  | some n =>
    simp [applyDoc, hd, mathMax_eq_max, foldMax_cons, foldMax_nil, max_comm]

theorem foldMin_reorder (b : ℚ) (S1 S2 S3 : List ℚ) :
    foldMin (foldMin b S1) (S2 ++ S3) =
      foldMin (foldMin (foldMin b S2) S1) S3 := by
  rw [foldMin_append]
  exact congrArg (fun z => foldMin z S3) (foldMin_comm S1 S2 b)

theorem foldMax_reorder (b : ℚ) (S1 S2 S3 : List ℚ) :
    foldMax (foldMax b S1) (S2 ++ S3) =
      foldMax (foldMax (foldMax b S2) S1) S3 := by
  rw [foldMax_append]
  exact congrArg (fun z => foldMax z S3) (foldMax_comm S1 S2 b)

/-- How the running minimum and maximum evolve over one traversal call: the
final values fold exactly the start/end times observed on the documents of
the newly fetched trace ids (plus, for `goSegments`, the documents of the
segments it was given directly). -/
theorem travTimes (store : TraceStore) : ∀ f : Nat,
    (∀ tid ti tf, traverseTrace store f tid ti = some (.ok tf) →
      ∃ new, tf.fetchLog = ti.fetchLog ++ new ∧
        tf.startTime = foldMin ti.startTime (startsOf store new) ∧
        tf.endTime = foldMax ti.endTime (endsOf store new)) ∧
    (∀ ss ti tf, goSegments store f ss ti = some (.ok tf) →
      ∃ new, tf.fetchLog = ti.fetchLog ++ new ∧
        tf.startTime =
          foldMin ti.startTime (ss.flatMap segStarts ++ startsOf store new) ∧
        tf.endTime =
          foldMax ti.endTime (ss.flatMap segEnds ++ endsOf store new)) ∧
    (∀ ls ti tf, goLinks store f ls ti = some (.ok tf) →
      ∃ new, tf.fetchLog = ti.fetchLog ++ new ∧
        tf.startTime = foldMin ti.startTime (startsOf store new) ∧
        tf.endTime = foldMax ti.endTime (endsOf store new)) := by
  intro f
  induction f with
  | zero =>
    refine ⟨fun tid ti tf h => ?_, fun ss ti tf h => ?_, fun ls ti tf h => ?_⟩ <;>
      simp [traverseTrace, goSegments, goLinks] at h
  | succ f ih =>
    obtain ⟨ihT, ihS, ihL⟩ := ih
    refine ⟨fun tid ti tf h => ?_, fun ss ti tf h => ?_, fun ls ti tf h => ?_⟩
    · by_cases hmem : tid ∈ ti.traceIDs
      · simp only [traverseTrace, if_pos hmem, Option.some.injEq,
          Except.ok.injEq] at h
        subst h
        exact ⟨[], by simp, by simp [startsOf_nil, foldMin_nil],
          by simp [endsOf_nil, foldMax_nil]⟩
      · cases hf : fetchTraces store tid with
        | error e => simp [traverseTrace, if_neg hmem, hf] at h
        | ok traces =>
          cases hemp : traces.isEmpty with
          | true =>
            have htr : traces = [] := List.isEmpty_iff.mp hemp
            subst htr
            simp only [traverseTrace, if_neg hmem, hf, if_true,
              List.isEmpty_nil, Option.some.injEq, Except.ok.injEq] at h
            subst h
            refine ⟨[tid], rfl, ?_, ?_⟩
            · rw [startsOf_cons_ok hf, startsOf_nil]
              simp [foldMin_nil]
            · rw [endsOf_cons_ok hf, endsOf_nil]
              simp [foldMax_nil]
          | false =>
            simp only [traverseTrace, if_neg hmem, hf, hemp,
              Bool.false_eq_true, if_false] at h
            obtain ⟨new1, hfl, hst, hen⟩ := ihS _ _ _ h
            refine ⟨tid :: new1, ?_, ?_, ?_⟩
            · rw [hfl]
              simp
            · rw [hst, startsOf_cons_ok hf, foldMin_append]
            · rw [hen, endsOf_cons_ok hf, foldMax_append]
    · cases ss with
      | nil =>
        simp only [goSegments, Option.some.injEq, Except.ok.injEq] at h
        subst h
        exact ⟨[], by simp, by simp [startsOf_nil, foldMin_nil],
          by simp [endsOf_nil, foldMax_nil]⟩
      | cons s ss =>
        cases hdoc : s.document with
        | none =>
          simp only [goSegments, hdoc] at h
          obtain ⟨new, hfl, hst, hen⟩ := ihS _ _ _ h
          refine ⟨new, hfl, ?_, ?_⟩
          · rw [hst]
            simp [segStarts_none hdoc]
          · rw [hen]
            simp [segEnds_none hdoc]
        | some dres =>
          cases dres with
          | error e => simp [goSegments, hdoc] at h
          | ok root =>
            cases hex : extractDoc root with
            | error e => simp [goSegments, hdoc, hex] at h
            | ok d =>
              cases hgl : goLinks store f d.links (applyDoc ti d) with
              | none => simp [goSegments, hdoc, hex, hgl] at h
              | some res =>
                cases res with
                | error e => simp [goSegments, hdoc, hex, hgl] at h
                | ok ti1 =>
                  simp only [goSegments, hdoc, hex, hgl] at h
                  obtain ⟨new1, hfl1, hst1, hen1⟩ := ihL _ _ _ hgl
                  obtain ⟨new2, hfl2, hst2, hen2⟩ := ihS _ _ _ h
                  refine ⟨new1 ++ new2, ?_, ?_, ?_⟩
                  · rw [hfl2, hfl1, applyDoc_fetchLog, List.append_assoc]
                  · rw [hst2, hst1, applyDoc_startTime, List.flatMap_cons,
                      segStarts_ok hdoc hex, startsOf_append, foldMin_reorder,
                      foldMin_append, foldMin_append, foldMin_append]
                  · rw [hen2, hen1, applyDoc_endTime, List.flatMap_cons,
                      segEnds_ok hdoc hex, endsOf_append, foldMax_reorder,
                      foldMax_append, foldMax_append, foldMax_append]
    · cases ls with
      | nil =>
        simp only [goLinks, Option.some.injEq, Except.ok.injEq] at h
        subst h
        exact ⟨[], by simp, by simp [startsOf_nil, foldMin_nil],
          by simp [endsOf_nil, foldMax_nil]⟩
      | cons l ls =>
        cases htt : traverseTrace store f l ti with
        | none => simp [goLinks, htt] at h
        | some res =>
          cases res with
          | error e => simp [goLinks, htt] at h
          | ok ti1 =>
            simp only [goLinks, htt] at h
            obtain ⟨new1, hfl1, hst1, hen1⟩ := ihT _ _ _ htt
            obtain ⟨new2, hfl2, hst2, hen2⟩ := ihL _ _ _ h
            refine ⟨new1 ++ new2, ?_, ?_, ?_⟩
            · rw [hfl2, hfl1, List.append_assoc]
            · rw [hst2, hst1, startsOf_append, foldMin_append]
            · rw [hen2, hen1, endsOf_append, foldMax_append]

/-! ## Termination: enough fuel always exists

The measure is the number of store ids not yet visited; it never grows
along a run, and strictly shrinks at every fresh fetch of an id the store
knows. -/

theorem traceMeasure_mono {store : TraceStore} {ti tf : TraverseTraceInfo}
    (h : ∃ nv, tf.traceIDs = ti.traceIDs ++ nv) :
    traceMeasure store tf ≤ traceMeasure store ti := by
  obtain ⟨nv, hnv⟩ := h
  apply Finset.card_le_card
  intro x hx
  rw [Finset.mem_sdiff] at hx ⊢
  refine ⟨hx.1, fun hmem => hx.2 ?_⟩
  rw [List.mem_toFinset] at hmem ⊢
  rw [hnv]
  exact List.mem_append_left _ hmem

theorem traceMeasure_applyDoc (store : TraceStore) (ti : TraverseTraceInfo)
    (d : DocInfo) : traceMeasure store (applyDoc ti d) = traceMeasure store ti := by
  simp [traceMeasure, applyDoc_traceIDs]

theorem traceMeasure_add_lt {store : TraceStore} {ti : TraverseTraceInfo}
    {tid : String} (hdom : tid ∈ store.map Prod.fst) (hmem : tid ∉ ti.traceIDs) :
    traceMeasure store
      { ti with fetchLog := ti.fetchLog ++ [tid],
                traceIDs := setAdd ti.traceIDs tid } < traceMeasure store ti := by
  apply Finset.card_lt_card
  rw [Finset.ssubset_iff_of_subset]
  · refine ⟨tid, ?_, ?_⟩
    · rw [Finset.mem_sdiff, List.mem_toFinset, List.mem_toFinset]
      exact ⟨hdom, hmem⟩
    · rw [Finset.mem_sdiff, List.mem_toFinset, List.mem_toFinset]
      intro hx
      exact hx.2 (by simp [setAdd_eq_append hmem])
  · intro x hx
    rw [Finset.mem_sdiff, List.mem_toFinset, List.mem_toFinset] at hx ⊢
    refine ⟨hx.1, fun hm => hx.2 ?_⟩
    simp [setAdd_eq_append hmem, hm]

theorem fetch_nonempty_dom {store : TraceStore} {tid : String}
    {traces : List Trace} (hf : fetchTraces store tid = .ok traces)
    (hemp : traces.isEmpty = false) : tid ∈ store.map Prod.fst := by
  cases hlk : List.lookup tid store with
  | none =>
    rw [fetchTraces, hlk] at hf
    cases hf
    simp at hemp
  | some r => exact lookup_some_mem hlk

/-- Some fuel always delivers a result, whatever the store, the starting
state and the argument: the traversal terminates on every finite trace
graph, cyclic or not. -/
theorem travProgress (store : TraceStore) : ∀ n : Nat,
    (∀ ti tid, traceMeasure store ti ≤ n →
      ∃ f r, traverseTrace store f tid ti = some r) ∧
    (∀ ss ti, traceMeasure store ti ≤ n →
      ∃ f r, goSegments store f ss ti = some r) ∧
    (∀ ls ti, traceMeasure store ti ≤ n →
      ∃ f r, goLinks store f ls ti = some r) := by
  intro n
  induction n using Nat.strong_induction_on with
  | _ n SIH =>
    have hT : ∀ ti tid, traceMeasure store ti ≤ n →
        ∃ f r, traverseTrace store f tid ti = some r := by
      intro ti tid hM
      by_cases hmem : tid ∈ ti.traceIDs
      · exact ⟨1, .ok ti, by simp [traverseTrace, hmem]⟩
      · cases hf : fetchTraces store tid with
        | error e =>
          exact ⟨1, .error ("BatchGetTraces: " ++ e),
            by simp [traverseTrace, hmem, hf]⟩
        | ok traces =>
          cases hemp : traces.isEmpty with
          | true =>
            refine ⟨1, .ok { ti with
              fetchLog := ti.fetchLog ++ [tid]
              traceIDs := setAdd ti.traceIDs tid }, ?_⟩
            simp [traverseTrace, hmem, hf, hemp]
          | false =>
            have hdom := fetch_nonempty_dom hf hemp
            have hlt := @traceMeasure_add_lt store ti tid hdom hmem
            obtain ⟨f1, r1, hr1⟩ :=
              (SIH (n - 1) (by omega)).2.1 (traces.flatMap Trace.segments)
                { ti with fetchLog := ti.fetchLog ++ [tid],
                          traceIDs := setAdd ti.traceIDs tid } (by omega)
            refine ⟨f1 + 1, r1, ?_⟩
            simp only [traverseTrace, if_neg hmem, hf, hemp,
              Bool.false_eq_true, if_false]
            exact hr1
    have hL : ∀ ls ti, traceMeasure store ti ≤ n →
        ∃ f r, goLinks store f ls ti = some r := by
      intro ls
      induction ls with
      | nil => exact fun ti _ => ⟨1, .ok ti, by simp [goLinks]⟩
      | cons l ls ihls =>
        intro ti hM
        obtain ⟨f1, r1, hr1⟩ := hT ti l hM
        cases r1 with
        | error e => exact ⟨f1 + 1, .error e, by simp [goLinks, hr1]⟩
        | ok ti1 =>
          have hM1 : traceMeasure store ti1 ≤ n :=
            le_trans (traceMeasure_mono ((travInv store f1).1 _ _ _ hr1).1.2.1) hM
          obtain ⟨f2, r2, hr2⟩ := ihls ti1 hM1
          have h1 := (travMonoLe store (le_max_left f1 f2)).1 _ _ _ hr1
          have h2 := (travMonoLe store (le_max_right f1 f2)).2.2 _ _ _ hr2
          exact ⟨max f1 f2 + 1, r2, by simp [goLinks, h1, h2]⟩
    have hS : ∀ ss ti, traceMeasure store ti ≤ n →
        ∃ f r, goSegments store f ss ti = some r := by
      intro ss
      induction ss with
      | nil => exact fun ti _ => ⟨1, .ok ti, by simp [goSegments]⟩
      | cons s ss ihss =>
        intro ti hM
        cases hdoc : s.document with
        | none =>
          obtain ⟨f1, r1, hr1⟩ := ihss ti hM
          refine ⟨f1 + 1, r1, ?_⟩
          simp only [goSegments, hdoc]
          exact hr1
        | some dres =>
          cases dres with
          | error e =>
            exact ⟨1, .error ("ajson.Unmarshal: " ++ e),
              by simp [goSegments, hdoc]⟩
          | ok root =>
            cases hex : extractDoc root with
            | error e => exact ⟨1, .error e, by simp [goSegments, hdoc, hex]⟩
            | ok d =>
              have hMa : traceMeasure store (applyDoc ti d) ≤ n := by
                rw [traceMeasure_applyDoc]
                exact hM
              obtain ⟨f1, r1, hr1⟩ := hL d.links (applyDoc ti d) hMa
              cases r1 with
              | error e =>
                exact ⟨f1 + 1, .error e, by simp [goSegments, hdoc, hex, hr1]⟩
              | ok ti1 =>
                have hM1 : traceMeasure store ti1 ≤ n :=
                  le_trans
                    (traceMeasure_mono ((travInv store f1).2.2 _ _ _ hr1).1.2.1)
                    hMa
                obtain ⟨f2, r2, hr2⟩ := ihss ti1 hM1
                have h1 := (travMonoLe store (le_max_left f1 f2)).2.2 _ _ _ hr1
                have h2 := (travMonoLe store (le_max_right f1 f2)).2.1 _ _ _ hr2
                exact ⟨max f1 f2 + 1, r2, by simp [goSegments, hdoc, hex, h1, h2]⟩
    exact ⟨hT, hS, hL⟩

/-! ## Aggregator-level lemmas -/

theorem initTI_tiinv : TIinv initTI :=
  ⟨fun x => by simp [initTI], by simp [initTI], by simp [initTI]⟩

/-- Completeness of the traversal: on a successful run from the initial
state, every id reachable from the root has been visited. -/
theorem reach_mem {store : TraceStore} {tid : String} {f : Nat}
    {tf : TraverseTraceInfo}
    (h : traverseTrace store f tid initTI = some (.ok tf)) :
    ∀ y, Reachable store tid y → y ∈ tf.traceIDs := by
  intro y hy
  induction hy with
  | refl => exact ((travInv store f).1 _ _ _ h).2.1
  | step x y hx hmem ihx =>
    exact ((travInv store f).1 _ _ _ h).2.2 x ihx (by simp [initTI]) y hmem

/-- The probe loop only rewrites `logGroups`; every other field survives. -/
theorem resolve_fields {probe : String → ProbeResult} :
    ∀ (ps : List ResetAPIInfo) (ti ti' : TraverseTraceInfo),
    resolveRestAPIs probe ps ti = .ok ti' →
    ti'.traceIDs = ti.traceIDs ∧ ti'.reqIDs = ti.reqIDs ∧
      ti'.startTime = ti.startTime ∧ ti'.endTime = ti.endTime ∧
      ti'.fetchLog = ti.fetchLog := by
  intro ps
  induction ps with
  | nil =>
    intro ti ti' h
    simp only [resolveRestAPIs, Except.ok.injEq] at h
    subst h
    exact ⟨rfl, rfl, rfl, rfl, rfl⟩
  | cons p ps ih =>
    intro ti ti' h
    rw [resolveRestAPIs] at h
    split at h
    · have hh := ih _ _ h
      exact hh
    · have hh := ih _ _ h
      exact hh
    · cases h

/-- Membership in the probe loop's final log-group set: a name is there iff
it was already there or some listed pair produces it by the naming
convention and its probe succeeds. -/
theorem resolve_mem {probe : String → ProbeResult} :
    ∀ (ps : List ResetAPIInfo) (ti ti' : TraverseTraceInfo),
    resolveRestAPIs probe ps ti = .ok ti' →
    ∀ name, name ∈ ti'.logGroups ↔
      (name ∈ ti.logGroups ∨
        ∃ p ∈ ps, apiLogGroupName p = name ∧ probe name = .found) := by
  intro ps
  induction ps with
  | nil =>
    intro ti ti' h name
    simp only [resolveRestAPIs, Except.ok.injEq] at h
    subst h
    simp
  | cons p ps ih =>
    intro ti ti' h name
    rw [resolveRestAPIs] at h
    split at h
    next hpr =>
      rw [ih _ _ h name]
      constructor
      · rintro (hin | hex)
        · rcases mem_setAdd.mp hin with hin | rfl
          · exact Or.inl hin
          · exact Or.inr ⟨p, by simp, rfl, hpr⟩
        · obtain ⟨q, hq, hnm, hpq⟩ := hex
          exact Or.inr ⟨q, List.mem_cons_of_mem _ hq, hnm, hpq⟩
      · rintro (hin | ⟨q, hq, hnm, hpq⟩)
        · exact Or.inl (mem_setAdd.mpr (Or.inl hin))
        · rcases List.mem_cons.mp hq with rfl | hq
          · exact Or.inl (mem_setAdd.mpr (Or.inr hnm.symm))
          · exact Or.inr ⟨q, hq, hnm, hpq⟩
    next hpr =>
      rw [ih _ _ h name]
      constructor
      · rintro (hin | ⟨q, hq, hnm, hpq⟩)
        · exact Or.inl hin
        · exact Or.inr ⟨q, List.mem_cons_of_mem _ hq, hnm, hpq⟩
      · rintro (hin | ⟨q, hq, hnm, hpq⟩)
        · exact Or.inl hin
        · rcases List.mem_cons.mp hq with rfl | hq
          · subst hnm
            rw [hpq] at hpr
            cases hpr
          · exact Or.inr ⟨q, hq, hnm, hpq⟩
    · cases h

/-- The probe loop succeeds when no listed pair's probe reports an error
other than not-found. -/
theorem resolve_ok_of_no_error {probe : String → ProbeResult} :
    ∀ (ps : List ResetAPIInfo) (ti : TraverseTraceInfo),
    (∀ p ∈ ps, ∀ e, probe (apiLogGroupName p) ≠ .otherError e) →
    ∃ ti', resolveRestAPIs probe ps ti = .ok ti' := by
  intro ps
  induction ps with
  | nil => exact fun ti _ => ⟨ti, rfl⟩
  | cons p ps ih =>
    intro ti hok
    rw [resolveRestAPIs]
    cases hpr : probe (apiLogGroupName p) with
    | found => exact ih _ fun q hq => hok q (List.mem_cons_of_mem _ hq)
    | notFound => exact ih _ fun q hq => hok q (List.mem_cons_of_mem _ hq)
    | otherError e => exact absurd hpr (hok p (by simp) e)

/-- The probe loop fails when some listed pair's probe reports an error
other than not-found. -/
theorem resolve_error_of_error {probe : String → ProbeResult} :
    ∀ (ps : List ResetAPIInfo) (ti : TraverseTraceInfo),
    (∃ p ∈ ps, ∃ e, probe (apiLogGroupName p) = .otherError e) →
    ∃ msg, resolveRestAPIs probe ps ti = .error msg := by
  intro ps
  induction ps with
  | nil => rintro ti ⟨p, hp, _⟩; cases hp
  | cons p ps ih =>
    rintro ti ⟨q, hq, e, hpe⟩
    rw [resolveRestAPIs]
    cases hpr : probe (apiLogGroupName p) with
    | found =>
      rcases List.mem_cons.mp hq with rfl | hq
      · rw [hpe] at hpr; cases hpr
      · exact ih _ ⟨q, hq, e, hpe⟩
    | notFound =>
      rcases List.mem_cons.mp hq with rfl | hq
      · rw [hpe] at hpr; cases hpr
      · exact ih _ ⟨q, hq, e, hpe⟩
    | otherError e' => exact ⟨"DescribeSubscriptionFilters: " ++ e', rfl⟩

/-- A delivered `GatherLogInfo` result is stable under raising the fuel. -/
theorem gatherMono (store : TraceStore) (probe : String → ProbeResult)
    {f g : Nat} (hfg : f ≤ g) :
    ∀ tid r, GatherLogInfo store probe f tid = some r →
      GatherLogInfo store probe g tid = some r := by
  intro tid r hr
  unfold GatherLogInfo at hr ⊢
  cases ht : traverseTrace store f tid initTI with
  | none => rw [ht] at hr; cases hr
  | some res =>
    rw [(travMonoLe store hfg).1 _ _ _ ht]
    rw [ht] at hr
    exact hr

/-! # The claims -/

/-- Claim C1 — the code violates it (code bug): when the root fetch
succeeds but returns zero trace documents, `GatherLogInfo` does not return
the absent result `(nil, nil)`; `traverseTrace` marks the root visited
right after the successful fetch and before the emptiness check, so the
`Cardinality() == 0` guard can never fire, and the caller receives a
present `LogInfo` holding just the root id and sentinel-derived times. -/
theorem c1_empty_root_yields_present_loginfo :
    GatherLogInfo storeEmptyRoot (fun _ => .notFound) 2 "R" =
      some (.ok (some ⟨["R"], [], [], i64 maxFloat64 - 1, 1⟩)) ∧
    GatherLogInfo storeEmptyRoot (fun _ => .notFound) 2 "R" ≠
      some (.ok none) := by
  exact ⟨by decide, by decide⟩

/-- Claim C4: on every finite trace graph, cyclic or not, some fuel lets
`traverseTrace` finish; and on any successful run from the initial state
the fetch log is duplicate-free (each trace fetched exactly once), fetched
and visited coincide, and every id reachable from the root was fetched. -/
theorem c4_traversal_terminates_visits_once (store : TraceStore) (tid : String) :
    (∃ f r, traverseTrace store f tid initTI = some r) ∧
    (∀ f tf, traverseTrace store f tid initTI = some (.ok tf) →
      tf.fetchLog.Nodup ∧ (∀ x, x ∈ tf.traceIDs ↔ x ∈ tf.fetchLog) ∧
      (∀ y, Reachable store tid y → y ∈ tf.fetchLog)) := by
  constructor
  · exact (travProgress store (traceMeasure store initTI)).1 initTI tid le_rfl
  · intro f tf h
    have hinv : TIinv tf := (((travInv store f).1 _ _ _ h).1.2.2) initTI_tiinv
    exact ⟨hinv.2.2, hinv.1, fun y hy => (hinv.1 y).mp (reach_mem h y hy)⟩

/-- Witness for C4, on the cyclic two-trace store: the run from `A` ends
with a duplicate-free fetch log, and `B` — reachable through the link of
`A` — was fetched. -/
theorem c4_witness : tfCycle.fetchLog.Nodup ∧ "B" ∈ tfCycle.fetchLog := by
  have h := (c4_traversal_terminates_visits_once storeCycle "A").2 8 tfCycle
    (by decide)
  exact ⟨h.1, h.2.2 "B"
    (Reachable.step "A" "B" Reachable.refl (by decide))⟩

/-- Claim C8: with a deterministic backing store and probe, any two runs of
`GatherLogInfo` on the same root that deliver a result deliver the same
result — whatever fuel each was given. -/
theorem c8_idempotent (store : TraceStore) (probe : String → ProbeResult)
    (tid : String) : ∀ f g r s,
    GatherLogInfo store probe f tid = some r →
    GatherLogInfo store probe g tid = some s → r = s := by
  intro f g r s hf hg
  rcases le_total f g with h | h
  · have := gatherMono store probe h tid r hf
    rw [this] at hg
    exact Option.some.inj hg
  · have := gatherMono store probe h tid s hg
    rw [this] at hf
    exact (Option.some.inj hf).symm

/-- Witness for C8: two runs on the cyclic store with different fuels agree. -/
theorem c8_witness :
    GatherLogInfo storeCycle (fun _ => .notFound) 9 "A" =
      GatherLogInfo storeCycle (fun _ => .notFound) 12 "A" := by
  have h9 : GatherLogInfo storeCycle (fun _ => .notFound) 9 "A" =
      some (.ok (some ⟨["A", "B"], [], [], i64 maxFloat64 - 1, 1⟩)) := by decide
  have h12 : GatherLogInfo storeCycle (fun _ => .notFound) 12 "A" =
      some (.ok (some ⟨["A", "B"], [], [], i64 maxFloat64 - 1, 1⟩)) := by decide
  have heq := c8_idempotent storeCycle (fun _ => .notFound) "A" 9 12 _ _ h9 h12
  exact h9.trans ((congrArg some heq).trans h12.symm)

/-- Claim C5 (amended): on a successful gather in which at least one start
time and at least one end time were observed, provided the observed start
times are within the float64 range and the maximum observed end time is
nonnegative (the running maximum is seeded with zero), the `LogInfo` start
is the truncated minimum observed start minus one second and the end is the
truncated maximum observed end plus one second. -/
theorem c5_time_bounds (store : TraceStore) (probe : String → ProbeResult)
    (f : Nat) (tid : String) (tf : TraverseTraceInfo) (li : LogInfo)
    (s0 e0 : ℚ) (srest erest : List ℚ)
    (ht : traverseTrace store f tid initTI = some (.ok tf))
    (hg : GatherLogInfo store probe f tid = some (.ok (some li)))
    (hs : startsOf store tf.fetchLog = s0 :: srest)
    (he : endsOf store tf.fetchLog = e0 :: erest)
    (hbound : ∀ x ∈ s0 :: srest, x ≤ maxFloat64)
    (hpos : 0 ≤ foldMax e0 erest) :
    li.StartTime = i64 (foldMin s0 srest) - 1 ∧
    li.EndTime = i64 (foldMax e0 erest) + 1 := by
  obtain ⟨new, hnew, hst, hen⟩ := (travTimes store f).1 _ _ _ ht
  have hnew' : new = tf.fetchLog := by
    rw [hnew]
    simp [initTI]
  subst hnew'
  rw [hs] at hst
  rw [he] at hen
  have hstart : tf.startTime = foldMin s0 srest := by
    rw [hst, foldMin_cons]
    show foldMin (min maxFloat64 s0) srest = foldMin s0 srest
    rw [min_eq_right (hbound s0 (by simp))]
  have hend : tf.endTime = foldMax e0 erest := by
    rw [hen, foldMax_cons]
    show foldMax (max 0 e0) erest = foldMax e0 erest
    rw [max_comm, foldMax_max_out, max_eq_left hpos]
  have hlen : ¬(tf.traceIDs.length = 0) := by
    have hmem := ((travInv store f).1 _ _ _ ht).2.1
    simp [List.length_eq_zero]
    exact List.ne_nil_of_mem hmem
  have hgg : GatherLogInfo store probe f tid =
      (if tf.traceIDs.length = 0 then some (.ok none)
       else
        match resolveRestAPIs probe tf.restAPIs tf with
        | .error e => some (.error e)
        | .ok ti' =>
          some (.ok (some ⟨ti'.traceIDs, ti'.reqIDs, ti'.logGroups,
            i64 ti'.startTime - 1, i64 ti'.endTime + 1⟩))) := by
    unfold GatherLogInfo
    rw [ht]
  rw [hgg, if_neg hlen] at hg
  cases hres : resolveRestAPIs probe tf.restAPIs tf with
  | error e => rw [hres] at hg; cases hg
  | ok ti' =>
    rw [hres] at hg
    obtain ⟨hT, hR, hS, hE⟩ := resolve_fields tf.restAPIs tf ti' hres
    simp only [Option.some.injEq, Except.ok.injEq] at hg
    subst hg
    constructor
    · show i64 ti'.startTime - 1 = i64 (foldMin s0 srest) - 1
      rw [hS, hstart]
    · show i64 ti'.endTime + 1 = i64 (foldMax e0 erest) + 1
      rw [hE.1, hend]

/-- Counterexample to claim C5 as stated: on a store whose one segment
carries `start_time = 10.5` and `end_time = -2`, the code returns epoch
seconds 9 and 1, whereas the claim demands `10.5 - 1 = 9.5` and
`-2 + 1 = -1`: the start is truncated before the subtraction, and a
negative maximum is masked by the zero seed of the running maximum. -/
theorem c5_counterexample :
    GatherLogInfo storeTimesNeg (fun _ => .notFound) 3 "T" =
      some (.ok (some ⟨["T"], [], [], 9, 1⟩)) ∧
    startsOf storeTimesNeg ["T"] = [mkRat 21 2] ∧
    endsOf storeTimesNeg ["T"] = [mkRat (-2) 1] ∧
    ¬((9 : ℚ) = mkRat 21 2 - 1) ∧ ¬((1 : ℚ) = mkRat (-2) 1 + 1) := by
  refine ⟨by decide, by decide, by decide, ?_, ?_⟩
  · rw [Rat.mkRat_eq_div]
    norm_num
  · rw [Rat.mkRat_eq_div]
    norm_num

/-- Witness for C5 (amended): a single segment carrying `start_time = 5.5`
and `end_time = 9.25` yields epoch bounds `4 = trunc(5.5) - 1` and
`10 = trunc(9.25) + 1`. -/
theorem c5_witness :
    (⟨["T"], [], [], 4, 10⟩ : LogInfo).StartTime =
      i64 (foldMin (mkRat 11 2) []) - 1 ∧
    (⟨["T"], [], [], 4, 10⟩ : LogInfo).EndTime =
      i64 (foldMax (mkRat 37 4) []) + 1 :=
  c5_time_bounds storeTimesPos (fun _ => .notFound) 3 "T" tfTimesPos
    ⟨["T"], [], [], 4, 10⟩ (mkRat 11 2) (mkRat 37 4) [] []
    (by decide) (by decide) (by decide) (by decide) (by decide) (by decide)

/-- Claim C7 (amended): for any successful traversal, (a) a discovered
pair's conventional log-group name, when it was not also discovered as an
explicit log-group reference, is in the final set iff its probe succeeds;
(b) when no pair's probe reports an error other than not-found the gather
succeeds (not-found is silently skipped); (c) when some pair's probe
reports another error the gather fails with an error. -/
theorem c7_probe_resolution (store : TraceStore) (probe : String → ProbeResult)
    (f : Nat) (tid : String) (tf : TraverseTraceInfo)
    (ht : traverseTrace store f tid initTI = some (.ok tf)) :
    (∀ li, GatherLogInfo store probe f tid = some (.ok (some li)) →
      ∀ p ∈ tf.restAPIs, apiLogGroupName p ∉ tf.logGroups →
        (apiLogGroupName p ∈ li.LogGroups ↔
          probe (apiLogGroupName p) = .found)) ∧
    ((∀ p ∈ tf.restAPIs, ∀ e, probe (apiLogGroupName p) ≠ .otherError e) →
      ∃ li, GatherLogInfo store probe f tid = some (.ok (some li))) ∧
    ((∃ p ∈ tf.restAPIs, ∃ e, probe (apiLogGroupName p) = .otherError e) →
      ∃ msg, GatherLogInfo store probe f tid = some (.error msg)) := by
  have hlen : ¬(tf.traceIDs.length = 0) := by
    have hmem := ((travInv store f).1 _ _ _ ht).2.1
    simp [List.length_eq_zero]
    exact List.ne_nil_of_mem hmem
  have hgg : GatherLogInfo store probe f tid =
      (if tf.traceIDs.length = 0 then some (.ok none)
       else
        match resolveRestAPIs probe tf.restAPIs tf with
        | .error e => some (.error e)
        | .ok ti' =>
          some (.ok (some ⟨ti'.traceIDs, ti'.reqIDs, ti'.logGroups,
            i64 ti'.startTime - 1, i64 ti'.endTime + 1⟩))) := by
    unfold GatherLogInfo
    rw [ht]
  refine ⟨fun li hli p hp hnot => ?_, fun hok => ?_, fun herr => ?_⟩
  · rw [hgg, if_neg hlen] at hli
    cases hres : resolveRestAPIs probe tf.restAPIs tf with
    | error e => rw [hres] at hli; cases hli
    | ok ti' =>
      rw [hres] at hli
      simp only [Option.some.injEq, Except.ok.injEq] at hli
      subst hli
      show apiLogGroupName p ∈ ti'.logGroups ↔ _
      rw [resolve_mem tf.restAPIs tf ti' hres]
      constructor
      · rintro (hin | ⟨q, _, hnm, hpq⟩)
        · exact absurd hin hnot
        · rw [← hnm] at hpq ⊢
          exact hpq
      · intro hfound
        exact Or.inr ⟨p, hp, rfl, hfound⟩
  · obtain ⟨ti', hres⟩ := resolve_ok_of_no_error tf.restAPIs tf hok
    refine ⟨⟨ti'.traceIDs, ti'.reqIDs, ti'.logGroups,
      i64 ti'.startTime - 1, i64 ti'.endTime + 1⟩, ?_⟩
    rw [hgg, if_neg hlen, hres]
  · obtain ⟨msg, hres⟩ := resolve_error_of_error tf.restAPIs tf herr
    refine ⟨msg, ?_⟩
    rw [hgg, if_neg hlen, hres]

/-- Counterexample to claim C7 as stated: the pair `{x, y}` is discovered
and every probe reports not-found, yet the conventional name appears in the
final log-group set, because the same name was also discovered as an
explicit log-group reference during traversal. -/
theorem c7_counterexample :
    traverseTrace storeApiCollide 3 "T" initTI = some (.ok tfApiCollide) ∧
    ⟨"x", "y"⟩ ∈ tfApiCollide.restAPIs ∧
    (fun _ => ProbeResult.notFound) (apiLogGroupName ⟨"x", "y"⟩) =
      ProbeResult.notFound ∧
    GatherLogInfo storeApiCollide (fun _ => .notFound) 3 "T" =
      some (.ok (some ⟨["T"], [], ["API-Gateway-Execution-Logs_x/y"],
        i64 maxFloat64 - 1, 1⟩)) ∧
    apiLogGroupName ⟨"x", "y"⟩ ∈
      (⟨["T"], [], ["API-Gateway-Execution-Logs_x/y"],
        i64 maxFloat64 - 1, 1⟩ : LogInfo).LogGroups := by
  exact ⟨by decide, by decide, rfl, by decide, by decide⟩

/-- Witness for C7 (amended): on the store whose document carries only the
API identity `{x, y}`, with an always-succeeding probe the conventional
name is in the final set, and the iff of part (a) holds concretely. -/
theorem c7_witness :
    apiLogGroupName ⟨"x", "y"⟩ ∈
      (⟨["T"], [], ["API-Gateway-Execution-Logs_x/y"],
        i64 maxFloat64 - 1, 1⟩ : LogInfo).LogGroups := by
  have h := (c7_probe_resolution storeApiOnly (fun _ => .found) 3 "T" tfApiOnly
    (by decide)).1
    ⟨["T"], [], ["API-Gateway-Execution-Logs_x/y"], i64 maxFloat64 - 1, 1⟩
    (by decide) ⟨"x", "y"⟩ (by decide) (by decide)
  exact h.mpr rfl

/-- Claim C10: a `{restApiId, stage}` pair is recorded exactly when the
rest-API-id path yields a match and the sibling `stage` lookup on the
matched node's parent yields a match; a found id with an absent stage is
silently dropped — no error, nothing added to the set. -/
theorem c10_rest_api_pair (root : Json) (ti : TraverseTraceInfo) (d : DocInfo)
    (hex : extractDoc root = .ok d) :
    (d.api = none → (applyDoc ti d).restAPIs = ti.restAPIs) ∧
    (∀ p, d.api = some p → (applyDoc ti d).restAPIs = setAdd ti.restAPIs p) ∧
    (extractAPIStage root = .ok d.api) ∧
    (extractRestAPI root = .ok none → d.api = none) ∧
    (∀ parent id, extractRestAPI root = .ok (some (parent, id)) →
      atMostOneStr (getKey parent "stage") = .ok none → d.api = none) ∧
    (∀ parent id stg, extractRestAPI root = .ok (some (parent, id)) →
      atMostOneStr (getKey parent "stage") = .ok (some stg) →
      d.api = some ⟨id, stg⟩) := by
  have hstage : extractAPIStage root = .ok d.api := by
    rw [extractDoc] at hex
    split at hex
    · cases hex
    split at hex
    · cases hex
    split at hex
    · cases hex
    split at hex
    · cases hex
    next apiOpt hapi =>
      split at hex
      · cases hex
      split at hex
      · cases hex
      simp only [Except.ok.injEq] at hex
      subst hex
      exact hapi
  refine ⟨fun hn => ?_, fun p hp => ?_, hstage, fun hnone => ?_,
    fun parent id hid hst => ?_, fun parent id stg hid hst => ?_⟩
  · simp [applyDoc, hn]
  · simp [applyDoc, hp]
  · rw [extractAPIStage, hnone] at hstage
    exact (Except.ok.inj hstage).symm
  · simp only [extractAPIStage, hid, hst, Except.ok.injEq] at hstage
    exact hstage.symm
  · simp only [extractAPIStage, hid, hst, Except.ok.injEq] at hstage
    exact hstage.symm

/-- Witness for C10: a document whose `rest_api_id` is present but whose
parent carries no `stage` leaves the set untouched and produces no error. -/
theorem c10_witness :
    (applyDoc initTI
      (⟨none, none, none, none, [], []⟩ : DocInfo)).restAPIs =
        initTI.restAPIs ∧
    extractAPIStage docApiNoStage = .ok none := by
  have h := c10_rest_api_pair docApiNoStage initTI
    ⟨none, none, none, none, [], []⟩ (by rfl)
  exact ⟨h.1 rfl, h.2.2.1⟩

/-! ## The polling loop -/

/-- `done` is set exactly on the two terminal statuses the service reports:
the loop returned success (`Complete`) or the `Failed` error. -/
theorem pollLoop_done_iff (boff : Nat → BackoffStep) (cancelAt : Option Nat) :
    ∀ (script : List PollOutcome) (i : Nat)
      (lastStat : Option QueryStatistics)
      (emitted : List (List (String × String))),
    (pollLoop boff cancelAt script i lastStat emitted).done = true ↔
      ((pollLoop boff cancelAt script i lastStat emitted).ret = .ok () ∨
       (pollLoop boff cancelAt script i lastStat emitted).ret =
         .error (.statusError .failed)) := by
  intro script
  induction script with
  | nil =>
    intro i ls em
    rw [pollLoop.eq_def]
    by_cases hc : ctxDone cancelAt (2 * i) = true <;> simp [hc]
  | cons o rest ih =>
    intro i ls em
    rw [pollLoop.eq_def]
    by_cases hc : ctxDone cancelAt (2 * i) = true
    · simp [hc]
    · cases o with
      | transportError e => simp [hc]
      | ok status stats results =>
        cases status with
        | scheduled =>
          cases hb : boff i with
          | stop => simp [hc, hb]
          | wait d =>
            by_cases hc2 : ctxDone cancelAt (2 * i + 1) = true
            · simp [hc, hb, hc2]
            · simpa [hc, hb, hc2] using ih (i + 1) (some stats) em
        | running =>
          cases hb : boff i with
          | stop => simp [hc, hb]
          | wait d =>
            by_cases hc2 : ctxDone cancelAt (2 * i + 1) = true
            · simp [hc, hb, hc2]
            · simpa [hc, hb, hc2] using ih (i + 1) (some stats) em
        | complete => simp [hc]
        | failed => simp [hc]
        | other s => simp [hc]

/-- Claim C3: a cancellation request is issued iff the loop exits without
`done` set; when issued it is a single call on an independent context with
a three-second timeout; its outcome never changes the returned error;
`done` is set exactly on `Complete` / `Failed`; and `Complete` on the very
first poll issues zero cancellation requests. -/
theorem c3_cleanup_contract (boff : Nat → BackoffStep) (cancelAt : Option Nat)
    (script : List PollOutcome) (stopOk : Bool) :
    ((getResult boff cancelAt script stopOk).done = false →
      (getResult boff cancelAt script stopOk).stopCalls = [⟨true, 3, stopOk⟩]) ∧
    ((getResult boff cancelAt script stopOk).done = true →
      (getResult boff cancelAt script stopOk).stopCalls = []) ∧
    ((getResult boff cancelAt script stopOk).done = true ↔
      ((getResult boff cancelAt script stopOk).ret = .ok () ∨
       (getResult boff cancelAt script stopOk).ret =
         .error (.statusError .failed))) ∧
    ((getResult boff cancelAt script true).ret =
      (getResult boff cancelAt script false).ret) ∧
    (∀ stats results rest, script = .ok .complete stats results :: rest →
      ctxDone cancelAt 0 = false →
      (getResult boff cancelAt script stopOk).stopCalls = []) := by
  refine ⟨fun h => ?_, fun h => ?_, ?_, rfl, fun stats results rest hs hc => ?_⟩
  · simp only [getResult] at h ⊢
    rw [h]
    rfl
  · simp only [getResult] at h ⊢
    rw [h]
    rfl
  · simp only [getResult]
    exact pollLoop_done_iff boff cancelAt script 0 none []
  · subst hs
    simp [getResult, pollLoop, hc]

/-- Witness for C3: `Complete` on the very first poll with a live context
issues zero cancellation requests. -/
theorem c3_witness :
    (getResult boffOne none [.ok .complete statA []] true).stopCalls = [] :=
  (c3_cleanup_contract boffOne none [.ok .complete statA []] true).2.2.2.2
    statA [] [] rfl (by decide)

/-- Claim C2 (amended): on the status sequence `[Running, Failed]` the call
returns the hard error carrying `Failed`, emits zero rows, writes the final
poll's statistics — and issues zero cancellation requests, because `Failed`
marks the loop done and the deferred `StopQuery` is skipped. -/
theorem c2_failed_no_stop (st1 st2 : QueryStatistics) (boff : Nat → BackoffStep)
    (stopOk : Bool) (hb : boff 0 ≠ .stop) :
    getResult boff none [.ok .running st1 [], .ok .failed st2 []] stopOk =
      ⟨.error (.statusError .failed), true, [], [], some st2⟩ := by
  cases hb0 : boff 0 with
  | stop => exact absurd hb0 hb
  | wait d => simp [getResult, pollLoop, ctxDone, hb0]

/-- Witness for C2 (amended), at a concrete backoff policy and stats. -/
theorem c2_witness :
    getResult boffOne none [.ok .running statA [], .ok .failed statB []] true =
      ⟨.error (.statusError .failed), true, [], [], some statB⟩ :=
  c2_failed_no_stop statA statB boffOne true (by decide)

/-- Counterexample to claim C2 as stated: on `[Running, Failed]` the number
of cancellation requests is zero, not one — `Failed` sets `done`, so the
deferred `StopQuery` does not run; the error and the zero emitted rows are
as claimed. -/
theorem c2_counterexample :
    (getResult boffOne none [.ok .running statA [], .ok .failed statB []]
      true).stopCalls.length = 0 ∧
    (getResult boffOne none [.ok .running statA [], .ok .failed statB []]
      true).ret = .error (.statusError .failed) ∧
    (getResult boffOne none [.ok .running statA [], .ok .failed statB []]
      true).emitted = [] :=
  ⟨rfl, rfl, rfl⟩

/-- Claim C6: on `[Scheduled, Running, Complete]` with the final poll
carrying pages of 3 and 2 rows, the call succeeds, writes exactly the 5 row
objects in page-then-row order, issues no cancellation, and the stats sink
receives the final poll's snapshot only. -/
theorem c6_complete_streams_rows (st1 st2 st3 : QueryStatistics)
    (p1 p2 : List ResultRow) (boff : Nat → BackoffStep) (stopOk : Bool)
    (hb0 : boff 0 ≠ .stop) (hb1 : boff 1 ≠ .stop)
    (hp1 : p1.length = 3) (hp2 : p2.length = 2) :
    getResult boff none
      [.ok .scheduled st1 [], .ok .running st2 [],
        .ok .complete st3 (p1 ++ p2)] stopOk =
      ⟨.ok (), true, p1.map rowToObject ++ p2.map rowToObject, [], some st3⟩ ∧
    (p1.map rowToObject ++ p2.map rowToObject).length = 5 := by
  constructor
  · cases hv0 : boff 0 with
    | stop => exact absurd hv0 hb0
    | wait d0 =>
      cases hv1 : boff 1 with
      | stop => exact absurd hv1 hb1
      | wait d1 =>
        simp [getResult, pollLoop, ctxDone, hv0, hv1, List.map_append]
  · simp [hp1, hp2]

/-- Witness for C6, on concrete pages of 3 and 2 rows. -/
theorem c6_witness :
    getResult boffOne none
      [.ok .scheduled statA [], .ok .running statB [],
        .ok .complete statC (rowsPage1 ++ rowsPage2)] true =
      ⟨.ok (), true, rowsPage1.map rowToObject ++ rowsPage2.map rowToObject,
        [], some statC⟩ ∧
    (rowsPage1.map rowToObject ++ rowsPage2.map rowToObject).length = 5 :=
  c6_complete_streams_rows statA statB statC rowsPage1 rowsPage2 boffOne true
    (by decide) (by decide) (by decide) (by decide)

/-! ## The filter clause -/

theorem strFoldl_append (l : List String) : ∀ a : String,
    l.foldl (· ++ ·) a = a ++ String.join l := by
  induction l with
  | nil => exact fun a => (String.append_empty a).symm
  | cons s l ih =>
    intro a
    show l.foldl (· ++ ·) (a ++ s) = a ++ String.join (s :: l)
    rw [ih (a ++ s)]
    have hj : String.join (s :: l) = s ++ String.join l := by
      show l.foldl (· ++ ·) ("" ++ s) = s ++ String.join l
      rw [String.empty_append, ih s]
    rw [hj, String.append_assoc]

theorem strJoin_cons (s : String) (l : List String) :
    String.join (s :: l) = s ++ String.join l := by
  show l.foldl (· ++ ·) ("" ++ s) = s ++ String.join l
  rw [String.empty_append, strFoldl_append]

theorem strJoin_append (l m : List String) :
    String.join (l ++ m) = String.join l ++ String.join m := by
  induction l with
  | nil =>
    show String.join m = "" ++ String.join m
    rw [String.empty_append]
  | cons s l ih =>
    rw [List.cons_append, strJoin_cons, strJoin_cons, ih, String.append_assoc]

theorem appendTraceFilters_pos (ts : List String) : ∀ (q : String) (i : Nat),
    0 < i → appendTraceFilters q i ts =
      q ++ String.join (ts.map (fun e => " or " ++ traceIDMatch e)) := by
  induction ts with
  | nil => exact fun q i _ => (String.append_empty q).symm
  | cons e ts ih =>
    intro q i hi
    show appendTraceFilters
      ((if i > 0 then q ++ " or " else q) ++ "@message like " ++ goQuote e)
      (i + 1) ts = _
    rw [if_pos hi, ih _ (i + 1) (Nat.succ_pos i), List.map_cons, strJoin_cons,
      traceIDMatch]
    simp only [String.append_assoc]

theorem appendRequestFilters_eq (rids : List String) : ∀ q : String,
    appendRequestFilters q rids =
      q ++ String.join (rids.map (fun e =>
        (" or @requestId = " ++ goQuote e) ++
          (" or @message like " ++ goQuote e))) := by
  induction rids with
  | nil => exact fun q => (String.append_empty q).symm
  | cons e rids ih =>
    intro q
    show appendRequestFilters
      (q ++ " or @requestId = " ++ goQuote e ++ " or @message like " ++
        goQuote e) rids = _
    rw [ih, List.map_cons, strJoin_cons]
    simp only [String.append_assoc]

theorem join_tid (ts : List String) :
    String.join ((ts.map traceIDMatch).map (fun y => " or " ++ y)) =
      String.join (ts.map (fun e => " or " ++ traceIDMatch e)) := by
  rw [List.map_map]
  rfl

theorem join_rid (rids : List String) :
    String.join ((rids.flatMap requestIDMatches).map (fun y => " or " ++ y)) =
      String.join (rids.map (fun e =>
        (" or @requestId = " ++ goQuote e) ++
          (" or @message like " ++ goQuote e))) := by
  induction rids with
  | nil => rfl
  | cons e rids ih =>
    show String.join ((" or " ++ ("@requestId = " ++ goQuote e)) ::
      (" or " ++ ("@message like " ++ goQuote e)) ::
      ((rids.flatMap requestIDMatches).map (fun y => " or " ++ y))) = _
    rw [strJoin_cons, strJoin_cons, ih, List.map_cons, strJoin_cons]
    simp only [String.append_assoc]
    rfl

/-- Claim C9: in trace-driven mode the submitted query text is the original
text followed by exactly the claimed filter clause: `| filter` then the
trace-id matches and the two request-id matches per request id, all joined
with ` or `. -/
theorem c9_filter_clause (q : String) (li : LogInfo)
    (hne : li.TraceIDs ≠ []) :
    buildQuery q li = q ++ "\n" ++ filterClauseSpec li := by
  obtain ⟨t0, ts, hts⟩ := List.exists_cons_of_ne_nil hne
  unfold buildQuery filterClauseSpec
  rw [hts]
  show appendRequestFilters
    (appendTraceFilters
      ((if (0 : Nat) > 0 then (q ++ "\n| filter ") ++ " or "
        else q ++ "\n| filter ") ++ "@message like " ++ goQuote t0) 1 ts)
      li.RequestIDs = _
  rw [if_neg (by omega)]
  rw [appendTraceFilters_pos ts _ 1 (by omega), appendRequestFilters_eq]
  rw [List.map_cons, List.cons_append, joinOr]
  rw [List.map_append, strJoin_append, join_tid, join_rid, traceIDMatch]
  simp only [String.append_assoc]
  rfl

/-- Witness for C9, at a two-trace-id, one-request-id `LogInfo`. -/
theorem c9_witness : buildQuery "Q" liW = "Q" ++ "\n" ++ filterClauseSpec liW :=
  c9_filter_clause "Q" liW (by decide)

end CWQ
